import Mathlib

/-!
Verification of the `rs_cub_pd` diff/patch crate (`src/diff_patch/src`).

The Rust sources are shallowly embedded: `Arc<String>` lines become `String`,
`Vec<Line>` becomes `List String`, `usize` arithmetic becomes `Nat` with an
explicit `% 2 ^ 64` wherever the Rust release build would wrap, `i64` becomes
`Int` (reduced mod `2 ^ 64` when cast back to `usize`), and operations that
panic (out-of-range slicing and indexing; in the line-containment check also
the wrapped-window slice, where a debug build already panics on the guard's
overflowing addition) return `Option`, with `none` standing for the panic.
-/

namespace RsCubPd

/-- The modulus of Rust `usize`/`u64` arithmetic on a 64-bit target. -/
def USIZE : Nat := 2 ^ 64

/-- Wrapping `usize` addition (`a.wrapping_add(b)`, the release-build meaning
of `a + b`). -/
def wadd (a b : Nat) : Nat := (a + b) % USIZE

/-- Wrapping `usize` subtraction (`a.wrapping_sub(b)`, the release-build
meaning of `a - b`). -/
def wsub (a b : Nat) : Nat := (a % USIZE + (USIZE - b % USIZE)) % USIZE

/-- `lib.rs`: `impl ApplyOffset for usize`: `(self as i64 + offset) as usize`.
The cast back to `usize` reinterprets the two's-complement value, i.e. takes
the result mod `2 ^ 64`. -/
def applyOffset (n : Nat) (offset : Int) : Nat := (((n : Int) + offset) % (USIZE : Int)).toNat

/-- `lines.rs`: `type Line = Arc<String>`. -/
abbrev Line := String

/-- `lines.rs`: `type Lines = Vec<Line>`. -/
abbrev Lines := List Line

/-- Rust slice `&l[a..b]`: panics (`none`) unless `a <= b <= l.len()`. -/
def sliceR (l : Lines) (a b : Nat) : Option Lines :=
  if a ≤ b ∧ b ≤ l.length then some ((l.take b).drop a) else none

/-- `lines.rs` `contains_sub_lines_at`, with the release-build meaning of the
guard: the sum `sub_lines.len() + index` wraps mod `2 ^ 64`.  When the wrapped
sum exceeds `self.len()` the function returns `false`; otherwise it compares
the window `self[index..index + sub_lines.len()]` pairwise against `sub`.
When the sum wrapped (so the slice's end lies below `index`), that slice
panics (`none`); a debug build panics on the same inputs, in the guard's
addition.  (`abstract_diff.rs`'s private copy indexes `lines[i + index]`
directly instead of slicing, with the same observable results.) -/
def containsSubLinesAt (self subLines : Lines) (index : Nat) : Option Bool :=
  if (subLines.length + index) % USIZE > self.length then some false
  else if subLines.length + index < USIZE then
    some ((((self.drop index).take subLines.length).zip subLines).all fun p => p.1 == p.2)
  else none

/-- The `for index in start..bound` body of `find_first_sub_lines`: the first
index whose containment check is true (`some (some index)`), `some none` when
the loop finishes without a match, and `none` when a containment check
panics. -/
def ffslLoop (self subLines : Lines) : List Nat → Option (Option Nat)
  | [] => some none
  | index :: rest =>
    match containsSubLinesAt self subLines index with
    | none => none
    | some true => some (some index)
    | some false => ffslLoop self subLines rest

/-- `lines.rs` `find_first_sub_lines`: `for index in
start_index..start_index + self.len() - sub_lines.len() + 1`, returning the
first index where `contains_sub_lines_at` holds.  The bound is computed with
wrapping `usize` arithmetic, exactly as a release build evaluates it (a debug
build panics on the underflowing subtraction whenever
`sub_lines.len() > start_index + self.len()`). -/
def findFirstSubLines (self subLines : Lines) (start_index : Nat) : Option (Option Nat) :=
  ffslLoop self subLines
    (List.range' start_index
      (wadd (wsub (wadd start_index self.length) subLines.length) 1 - start_index))

/-- `Iterator::position` over a zipped pair list: index of the first unequal
pair (`lines.rs` uses `.position(|(a, b)| a != b)`). -/
def positionMismatch : List (Line × Line) → Option Nat
  | [] => none
  | p :: rest => if p.1 ≠ p.2 then some 0 else (positionMismatch rest).map (· + 1)

/-- `lines.rs` `first_inequality_fm_head`. -/
def first_inequality_fm_head (lines1 lines2 : Lines) : Option Nat :=
  match positionMismatch (lines1.zip lines2) with
  | some index => some index
  | none =>
    if lines1.length = lines2.length then none
    else some (min lines1.length lines2.length)

/-- `lines.rs` `first_inequality_fm_tail`. -/
def first_inequality_fm_tail (lines1 lines2 : Lines) : Option Nat :=
  match positionMismatch (lines1.reverse.zip lines2.reverse) with
  | some index => some index
  | none =>
    if lines1.length > lines2.length then some (lines1.length - lines2.length)
    else if lines2.length > lines1.length then some (lines2.length - lines1.length)
    else none


/-! ### The abstract hunk model and the application engine
(`abstract_diff.rs`). -/

/-- `abstract_diff.rs`: `const ANTE: usize = 0`. -/
def ANTE : Nat := 0

/-- `abstract_diff.rs`: `const POST: usize = 1`. -/
def POST : Nat := 1

/-- `abstract_diff.rs`: `const FUZZ_FACTOR: usize = 2`. -/
def FUZZ_FACTOR : Nat := 2

structure AbstractChunk where
  start_index : Nat
  lines : Lines
deriving DecidableEq

/-- `AbstractChunk::end_index`. -/
def AbstractChunk.end_index (c : AbstractChunk) : Nat := wadd c.start_index c.lines.length

/-- `AbstractChunk::matches_lines` (`none` propagates a containment-check
panic). -/
def AbstractChunk.matches_lines (c : AbstractChunk) (lines : Lines) (offset : Int) :
    Option Bool :=
  containsSubLinesAt lines c.lines (applyOffset c.start_index offset)

structure AbstractHunk where
  ante : AbstractChunk
  post : AbstractChunk
  ante_context_len : Nat
  post_context_len : Nat
deriving DecidableEq

/-- Indexing the two-element `chunk` array `[ante, post]`. -/
def AbstractHunk.chunk (h : AbstractHunk) (i : Nat) : AbstractChunk :=
  if i = ANTE then h.ante else h.post

/-- `AbstractHunk::new`; the two `.unwrap()` calls panic (`none`) exactly when
the chunks hold equal line sequences. -/
def AbstractHunk.new (ante_chunk post_chunk : AbstractChunk) : Option AbstractHunk :=
  match first_inequality_fm_head ante_chunk.lines post_chunk.lines,
      first_inequality_fm_tail ante_chunk.lines post_chunk.lines with
  | some ante_context_len, some post_context_len =>
      some ⟨ante_chunk, post_chunk, ante_context_len, post_context_len⟩
  | _, _ => none

structure CompromisedPosnData where
  start_index : Nat
  ante_context_redn : Nat
  post_context_redn : Nat
deriving DecidableEq

structure AppliedPosnData where
  start_posn : Nat
  length : Nat
deriving DecidableEq

/-- The `Display` instance for `AppliedPosnData`. -/
def AppliedPosnData.display (a : AppliedPosnData) : String :=
  let sp := a.start_posn
  let ln := a.length
  s!"line {sp} ({ln} lines)"

/-- The `for context_redn in 0..fuzz_factor.min(...) + 1` loop body of
`AbstractHunk::get_compromised_posn`, over the list of reduction candidates.
The slice of the ante-side lines can panic (`none`) for degenerate hunks, and
a panic inside `find_first_sub_lines` propagates. -/
def gcpLoop (h : AbstractHunk) (lines : Lines) (start_index : Nat) (reverse : Bool) :
    List Nat → Option (Option CompromisedPosnData)
  | [] => some none
  | context_redn :: rest =>
    let ante_context_redn := min context_redn h.ante_context_len
    let post_context_redn := min context_redn h.post_context_len
    let fm := ante_context_redn
    let ante := if reverse then POST else ANTE
    let toIdx := wsub (h.chunk ante).lines.length post_context_redn
    match sliceR (h.chunk ante).lines fm toIdx with
    | none => none
    | some sub =>
      match findFirstSubLines lines sub start_index with
      | none => none
      | some (some found) => some (some ⟨found, ante_context_redn, post_context_redn⟩)
      | some none => gcpLoop h lines start_index reverse rest

/-- `AbstractHunk::get_compromised_posn`. -/
def AbstractHunk.get_compromised_posn (h : AbstractHunk) (lines : Lines) (start_index : Nat)
    (fuzz_factor : Nat) (reverse : Bool) : Option (Option CompromisedPosnData) :=
  gcpLoop h lines start_index reverse
    (List.range (min fuzz_factor (max h.ante_context_len h.post_context_len) + 1))

/-- `AbstractHunk::get_applied_posn` (wrapping `usize` arithmetic). -/
def AbstractHunk.get_applied_posn (h : AbstractHunk) (end_posn : Nat)
    (post_context_redn : Nat) (reverse : Bool) : AppliedPosnData :=
  let post := if reverse then ANTE else POST
  let length := wsub (wsub (h.chunk post).lines.length h.ante_context_len) h.post_context_len
  let start_posn :=
    wadd (wsub (wsub end_posn length) (wsub h.post_context_len post_context_redn)) 1
  ⟨start_posn, length⟩

/-- `AbstractHunk::is_already_applied`. -/
def AbstractHunk.is_already_applied (h : AbstractHunk) (lines : Lines) (offset : Int)
    (reverse : Bool) : Option Bool :=
  let ante := if reverse then POST else ANTE
  let post := if reverse then ANTE else POST
  let fr_offset : Int :=
    ((h.chunk ante).start_index : Int) - ((h.chunk post).start_index : Int)
  (h.chunk post).matches_lines lines (fr_offset + offset)

/-- `AbstractHunk::length_diff`. -/
def AbstractHunk.length_diff (h : AbstractHunk) (reverse : Bool) : Int :=
  if reverse then ((h.chunk ANTE).lines.length : Int) - ((h.chunk POST).lines.length : Int)
  else ((h.chunk POST).lines.length : Int) - ((h.chunk ANTE).lines.length : Int)

/-- `AbstractHunk::len_minus_post_context`. -/
def AbstractHunk.len_minus_post_context (h : AbstractHunk) (reverse : Bool) : Nat :=
  if reverse then wsub (h.chunk ANTE).lines.length h.post_context_len
  else wsub (h.chunk POST).lines.length h.post_context_len

/-- `lines.rs` `Line::conflict_start_marker()` (no trailing newline). -/
def conflict_start_marker : Line := "<<<<<<<"

/-- `lines.rs` `Line::conflict_separation_marker()`. -/
def conflict_separation_marker : Line := "======="

/-- `lines.rs` `Line::conflict_end_marker()`. -/
def conflict_end_marker : Line := ">>>>>>>"

structure ApplnResult where
  lines : Lines
  successes : Nat
  merges : Nat
  already_applied : Nat
  failures : Nat
deriving DecidableEq

structure AbstractDiff where
  hunks : List AbstractHunk
deriving DecidableEq

/-- The hunk loop of `AbstractDiff::apply_to_lines`.  Diagnostics written to
`err_w` are collected as a list of lines (strategy (d)'s two `write!` calls
form a single line and are modelled as one entry).  The returned `Nat` is the
final `lines_index`; `none` models a slice-indexing panic. -/
def applyHunks (lines : Lines) (reverse : Bool) (path : Option String) (total : Nat) :
    List AbstractHunk → Nat → Int → Nat → ApplnResult → List String →
      Option (ApplnResult × List String × Nat)
  | [], _, _, lines_index, result, diags => some (result, diags, lines_index)
  | hunk :: rest, hunk_index, current_offset, lines_index, result, diags =>
    let ante := if reverse then POST else ANTE
    let post := if reverse then ANTE else POST
    match (hunk.chunk ante).matches_lines lines current_offset with
    | none => none
    | some true =>
      -- strategy (a): exact placement
      let index := applyOffset (hunk.chunk ante).start_index current_offset
      match sliceR lines lines_index index with
      | none => none
      | some seg =>
        applyHunks lines reverse path total rest (hunk_index + 1) current_offset
          (applyOffset (wadd (hunk.chunk ante).start_index (hunk.chunk ante).lines.length)
            current_offset)
          ⟨result.lines ++ seg ++ (hunk.chunk post).lines, wadd result.successes 1,
            result.merges, result.already_applied, result.failures⟩
          diags
    | some false =>
      match hunk.get_compromised_posn lines lines_index FUZZ_FACTOR reverse with
      | none => none
      | some (some cpd) =>
        -- strategy (b): fuzzed placement; note the source re-emits the
        -- *ante*-side lines here
        match sliceR lines lines_index cpd.start_index with
        | none => none
        | some seg =>
          let endIdx := wsub (hunk.chunk ante).lines.length cpd.post_context_redn
          match sliceR (hunk.chunk ante).lines cpd.ante_context_redn endIdx with
          | none => none
          | some mid =>
            let newLines := result.lines ++ seg ++ mid
            let lines_index2 :=
              wsub (wsub (wadd cpd.start_index (hunk.chunk ante).lines.length)
                cpd.ante_context_redn) cpd.post_context_redn
            let current_offset2 : Int := (cpd.start_index : Int) -
              ((hunk.chunk ante).start_index : Int) - (cpd.ante_context_redn : Int)
            let apd := (hunk.get_applied_posn newLines.length cpd.post_context_redn
              reverse).display
            let hn := hunk_index + 1
            let diag := match path with
              | some p => s!"\x22{p}\x22: Hunk #{hn} merged at {apd}.\n"
              | none => s!"Hunk #{hn} merged at {apd}.\n"
            applyHunks lines reverse path total rest (hunk_index + 1) current_offset2
              lines_index2
              ⟨newLines, result.successes, wadd result.merges 1, result.already_applied,
                result.failures⟩
              (diags ++ [diag])
      | some none =>
        match hunk.is_already_applied lines current_offset reverse with
        | none => none
        | some true =>
          -- strategy (c): already applied
          let new_lines_index := applyOffset (hunk.chunk post).end_index current_offset
          match sliceR lines lines_index new_lines_index with
          | none => none
          | some seg =>
            let newLines := result.lines ++ seg
            let apd := (hunk.get_applied_posn newLines.length 0 reverse).display
            let hn := hunk_index + 1
            let diag := match path with
              | some p => s!"\x22{p}\x22: Hunk #{hn} already applied at {apd}.\n"
              | none => s!"Hunk #{hn} already applied at {apd}.\n"
            applyHunks lines reverse path total rest (hunk_index + 1)
              (current_offset + hunk.length_diff reverse) new_lines_index
              ⟨newLines, result.successes, result.merges, wadd result.already_applied 1,
                result.failures⟩
              (diags ++ [diag])
        | some false =>
          let ante_hlen := wsub (hunk.chunk ante).lines.length hunk.post_context_len
          if applyOffset (wadd (hunk.chunk ante).start_index ante_hlen) current_offset >
              lines.length then
            -- strategy (d): ran out of lines; all remaining hunks fail
            let remaining := total - hunk_index
            let pre := match path with
              | some p => s!"\x22{p}\x22: Unexpected end of file: "
              | none => "Unexpected end of file: "
            let hn := hunk_index + 1
            let msg := if remaining > 1 then s!"Hunks #{hn}-{total} could NOT be applied.\n"
              else s!"Hunk #{hn} could NOT be applied.\n"
            some (⟨result.lines, result.successes, result.merges, result.already_applied,
              wadd result.failures remaining⟩, diags ++ [pre ++ msg], lines_index)
          else
            -- strategy (e): conflict emission
            let end_index := applyOffset (hunk.chunk ante).start_index current_offset
            match sliceR lines lines_index end_index with
            | none => none
            | some seg1 =>
              let lines1 := result.lines ++ seg1 ++ [conflict_start_marker]
              let start_line := lines1.length
              match sliceR lines end_index (wadd end_index ante_hlen) with
              | none => none
              | some seg2 =>
                let lmpc := hunk.len_minus_post_context reverse
                match sliceR (hunk.chunk post).lines 0 lmpc with
                | none => none
                | some postSeg =>
                  let lines2 := lines1 ++ seg2 ++ [conflict_separation_marker] ++ postSeg ++
                    [conflict_end_marker]
                  let end_line := lines2.length
                  let hn := hunk_index + 1
                  let diag := match path with
                    | some p => s!"\x22{p}\x22: Hunk #{hn} NOT MERGED at {start_line}-{end_line}.\n"
                    | none => s!"Hunk #{hn} NOT MERGED at {start_line}-{end_line}.\n"
                  applyHunks lines reverse path total rest (hunk_index + 1) current_offset
                    (wadd end_index ante_hlen)
                    ⟨lines2, result.successes, result.merges, result.already_applied,
                      result.failures⟩
                    (diags ++ [diag])

/-- `AbstractDiff::apply_to_lines`: run the hunk loop, then copy the rest of
the source verbatim. -/
def AbstractDiff.apply_to_lines (d : AbstractDiff) (lines : Lines) (reverse : Bool)
    (repd_file_path : Option String) : Option (ApplnResult × List String) :=
  match applyHunks lines reverse repd_file_path d.hunks.length d.hunks 0 0 0
      ⟨[], 0, 0, 0, 0⟩ [] with
  | none => none
  | some (result, diags, lines_index) =>
    match sliceR lines lines_index lines.length with
    | none => none
    | some tailSeg =>
      some (⟨result.lines ++ tailSeg, result.successes, result.merges,
        result.already_applied, result.failures⟩, diags)

/-! ### The git base-85 codec (`git_base85.rs`). -/

/-- `DiffFormat` (`lib.rs`). -/
inductive DiffFormat
  | Unified
  | Context
  | GitBinary
deriving DecidableEq

/-- `DiffParseError` (`text_diff.rs`, together with the variants the git
binary modules add to it). -/
inductive DiffParseError
  | MissingAfterFileData : Nat → DiffParseError
  | ParseNumberError : String → Nat → DiffParseError
  | UnexpectedEndOfInput : DiffParseError
  | UnexpectedEndHunk : DiffFormat → Nat → DiffParseError
  | SyntaxError : DiffFormat → Nat → DiffParseError
  | Base85Error : String → DiffParseError
  | UnexpectedInput : DiffFormat → String → DiffParseError
  | ZLibInflateError : String → DiffParseError
  | GitDeltaError : String → DiffParseError
deriving DecidableEq

deriving instance DecidableEq for Except

/-- The 85-byte alphabet `ENCODE` of `git_base85.rs`
(`0-9A-Za-z!#$%&()*+-;<=>?@^_` backtick `{|}~`), as byte values. -/
def ENCODE : List Nat :=
  [48, 49, 50, 51, 52, 53, 54, 55, 56, 57, 65, 66, 67, 68, 69, 70, 71, 72, 73, 74, 75, 76,
   77, 78, 79, 80, 81, 82, 83, 84, 85, 86, 87, 88, 89, 90, 97, 98, 99, 100, 101, 102, 103,
   104, 105, 106, 107, 108, 109, 110, 111, 112, 113, 114, 115, 116, 117, 118, 119, 120,
   121, 122, 33, 35, 36, 37, 38, 40, 41, 42, 43, 45, 59, 60, 61, 62, 63, 64, 94, 95, 96,
   123, 124, 125, 126]

/-- `git_base85.rs`: `const MAX_VAL: u64 = 0xFFFFFFFF`. -/
def MAX_VAL : Nat := 0xFFFFFFFF

/-- Index of a byte in a table (first hit). -/
def indexInTable (ch : Nat) : List Nat → Option Nat
  | [] => none
  | c :: rest => if c = ch then some 0 else (indexInTable ch rest).map (· + 1)

/-- The `decode_map` built by `GitBase85::new`: each alphabet byte maps to its
index in `ENCODE` (the bytes are distinct, so the first hit is the entry). -/
def decode_map (ch : Nat) : Option Nat := indexInTable ch ENCODE

/-- `git_base85.rs` `struct Encoding`. -/
structure Encoding where
  string : List Nat
  size : Nat
deriving DecidableEq

/-- The accumulator built from one group of at most four bytes:
`for cnt in [24, 16, 8, 0]: acc |= data[index] << cnt`. -/
def accOfGroup (g : List Nat) : Nat :=
  (g.zip [24, 16, 8, 0]).foldl (fun acc p => acc ||| (p.1 <<< p.2)) 0

/-- The `for _ in 0..5 { snippet.insert(0, ENCODE[acc % 85]); acc /= 85 }`
loop: five base-85 digits of `acc`, most significant first. -/
def snippetAux : Nat → Nat → List Nat
  | 0, _ => []
  | n + 1, acc => snippetAux n (acc / 85) ++ [ENCODE.getD (acc % 85) 0]

/-- The encoded character stream of `GitBase85::encode`: one five-character
snippet per group of up to four input bytes (the `while index < data.len()`
loop, with the final short group spelt out so the recursion is
structural). -/
def encodeString : List Nat → List Nat
  | [] => []
  | [b0] => snippetAux 5 (accOfGroup [b0])
  | [b0, b1] => snippetAux 5 (accOfGroup [b0, b1])
  | [b0, b1, b2] => snippetAux 5 (accOfGroup [b0, b1, b2])
  | b0 :: b1 :: b2 :: b3 :: rest =>
    snippetAux 5 (accOfGroup [b0, b1, b2, b3]) ++ encodeString rest

/-- `GitBase85::encode`. -/
def GitBase85.encode (data : List Nat) : Encoding := ⟨encodeString data, data.length⟩

/-- The inner `for _ in 0..5` digit loop of `GitBase85::decode`: consume up to
`n` characters (stopping early when the stream is exhausted), folding
`acc = acc * 85 + d`. -/
def foldAcc : Nat → Nat → List Nat → Except DiffParseError (Nat × List Nat)
  | acc, 0, s => .ok (acc, s)
  | acc, _ + 1, [] => .ok (acc, [])
  | acc, n + 1, ch :: rest =>
    match decode_map ch with
    | some d => foldAcc (acc * 85 + d) n rest
    | none => .error (.Base85Error "Illegal git base 85 character")

/-- One `acc = (acc << 8) | (acc >> 24)` step on a `u64` accumulator. -/
def rotl8 (acc : Nat) : Nat := ((acc <<< 8) % USIZE) ||| (acc >>> 24)

/-- The `for _ in 0..4` byte-emission loop of `GitBase85::decode`, emitting
`k` bytes. -/
def extractBytes : Nat → Nat → List Nat
  | _, 0 => []
  | acc, k + 1 => rotl8 acc % 256 :: extractBytes (rotl8 acc) k

/-- The final iteration of the `while d_index < encoding.size` loop of
`GitBase85::decode`: at most four bytes remain, so it emits them all and the
loop ends. -/
def decodeLast (s : List Nat) (k : Nat) : Except DiffParseError (List Nat) :=
  match foldAcc 0 5 s with
  | .error e => .error e
  | .ok (acc, _) =>
    if MAX_VAL < acc then .error (.Base85Error s!"{acc}: base85 accumulator overflow.")
    else .ok (extractBytes acc k)

/-- The `while d_index < encoding.size` loop of `GitBase85::decode`, with
`rem` bytes still to produce; each full iteration emits
`min 4 rem` bytes (the short cases are spelt out so the recursion is
structural). -/
def decodeLoop : List Nat → Nat → Except DiffParseError (List Nat)
  | _, 0 => .ok []
  | s, 1 => decodeLast s 1
  | s, 2 => decodeLast s 2
  | s, 3 => decodeLast s 3
  | s, 4 => decodeLast s 4
  | s, rem + 5 =>
    match foldAcc 0 5 s with
    | .error e => .error e
    | .ok (acc, s2) =>
      if MAX_VAL < acc then .error (.Base85Error s!"{acc}: base85 accumulator overflow.")
      else
        match decodeLoop s2 (rem + 1) with
        | .error e => .error e
        | .ok rest => .ok (extractBytes acc 4 ++ rest)

/-- `GitBase85::decode`. -/
def GitBase85.decode (encoding : Encoding) : Except DiffParseError (List Nat) :=
  decodeLoop encoding.string encoding.size

/-- `GitBase85::decode_size` (`'A' = 65`, `'Z' = 90`, `'a' = 97`,
`'z' = 122`). -/
def GitBase85.decode_size (ch : Nat) : Except DiffParseError Nat :=
  if 65 ≤ ch ∧ ch ≤ 90 then .ok (ch - 65)
  else if 97 ≤ ch ∧ ch ≤ 122 then .ok (ch - 97 + 27)
  else
    let c := Char.ofNat ch
    .error (.UnexpectedInput .GitBinary s!"{c}: expected char in range [azAZ]")

/-! ### Diffs, preambles and patches (`text_diff.rs`, `preamble.rs`,
`diff.rs`, `patch.rs`), as far as `DiffPlus::len` needs them. -/

/-- Rust `str::starts_with` on a literal prefix (byte prefix; the inputs here
are ASCII so the character-list prefix test coincides). -/
def startsWithR (s : Line) (pre : String) : Bool := pre.data.isPrefixOf s.data

/-- `UnifiedDiffChunk` (`unified_diff.rs`). -/
structure UnifiedDiffChunk where
  start_line_num : Nat
  length : Nat
deriving DecidableEq

/-- `UnifiedDiffHunk` (`unified_diff.rs`). -/
structure UnifiedDiffHunk where
  lines : Lines
  ante_chunk : UnifiedDiffChunk
  post_chunk : UnifiedDiffChunk
deriving DecidableEq

/-- `TextDiffHunk::len` for `UnifiedDiffHunk`. -/
def UnifiedDiffHunk.len (h : UnifiedDiffHunk) : Nat := h.lines.length

/-- `ContextDiffChunk` (`context_diff.rs`). -/
structure ContextDiffChunk where
  offset : Nat
  start_line_num : Nat
  _length : Nat
  numlines : Nat
deriving DecidableEq

/-- `ContextDiffHunk` (`context_diff.rs`). -/
structure ContextDiffHunk where
  lines : Lines
  ante_chunk : ContextDiffChunk
  post_chunk : ContextDiffChunk
deriving DecidableEq

/-- `TextDiffHunk::len` for `ContextDiffHunk`. -/
def ContextDiffHunk.len (h : ContextDiffHunk) : Nat := h.lines.length

/-- `TextDiffHeader` (`text_diff.rs`); the path/timestamp fields play no role
in the length bookkeeping. -/
structure TextDiffHeader where
  lines : Lines
deriving DecidableEq

/-- `TextDiff<H>` (`text_diff.rs`). -/
structure TextDiff (H : Type) where
  lines_consumed : Option Nat
  diff_format : DiffFormat
  header : TextDiffHeader
  hunks : List H

/-- `TextDiff::len`: the cached `lines_consumed` when present, otherwise
header length plus the hunk lengths. -/
def TextDiff.len {H : Type} (hunkLen : H → Nat) (d : TextDiff H) : Nat :=
  match d.lines_consumed with
  | some length => length
  | none => d.hunks.foldl (fun n h => n + hunkLen h) d.header.lines.length

/-- `GitPreamble` (`preamble.rs`). -/
structure GitPreamble where
  lines : Lines
  ante_file_path : String
  post_file_path : String
  extras : List (String × String × Nat)
deriving DecidableEq

/-- `PreambleIfce::len` for `GitPreamble`. -/
def GitPreamble.len (g : GitPreamble) : Nat := g.lines.length

/-- The `Preamble` enum as `diff.rs` consumes it (only the git form
exists). -/
inductive Preamble
  | Git : GitPreamble → Preamble

/-- `Preamble::len`. -/
def Preamble.len : Preamble → Nat
  | .Git g => g.len

/-- The `Diff` enum (`diff.rs`). -/
inductive Diff
  | Unified : TextDiff UnifiedDiffHunk → Diff
  | Context : TextDiff ContextDiffHunk → Diff
  | GitPreambleOnly : GitPreamble → Diff

/-- `Diff::len`. -/
def Diff.len : Diff → Nat
  | .Unified d => TextDiff.len UnifiedDiffHunk.len d
  | .Context d => TextDiff.len ContextDiffHunk.len d
  | .GitPreambleOnly g => g.len

/-- `DiffPlus` (`diff.rs`). -/
structure DiffPlus where
  preamble : Option Preamble
  diff : Diff

/-- `DiffPlus::len`, made fuel-indexed because the source recursion

```text
if let Some(ref preamble) = self.preamble {
    preamble.len() + self.diff.len()
} else {
    self.len()
}
```

calls itself on the unchanged receiver in the `None` branch.  `lenFuel fuel dp`
is the value `DiffPlus::len` computes within `fuel` recursive calls, `none`
when it has not produced one. -/
def DiffPlus.lenFuel : Nat → DiffPlus → Option Nat
  | 0, _ => none
  | fuel + 1, dp =>
    match dp.preamble with
    | some preamble => some (preamble.len + dp.diff.len)
    | none => DiffPlus.lenFuel fuel dp

/-! ### Lowering a unified hunk to an abstract hunk (`unified_diff.rs`,
`text_diff.rs`). -/

/-- `str::trim_right_matches("\n")`: strip every trailing newline
character. -/
def trimNewlines (s : Line) : Line := ⟨(s.data.reverse.dropWhile (· == '\n')).reverse⟩

/-- `text_diff.rs` `extract_source_lines`: keep the lines not skipped and not
`\`-markers, trim `trim_left_n` columns, and strip the trailing newline from a
line immediately followed by a `\` marker.  (Column trimming is byte-based in
Rust; the inputs are ASCII.) -/
def extract_source_lines (trim_left_n : Nat) (skip : Line → Bool) : Lines → Lines
  | [] => []
  | [l] => if skip l || startsWithR l "\x5c" then [] else [l.drop trim_left_n]
  | l :: l2 :: rest =>
    (if skip l || startsWithR l "\x5c" then []
     else if startsWithR l2 "\x5c" then [trimNewlines (l.drop trim_left_n)]
     else [l.drop trim_left_n]) ++ extract_source_lines trim_left_n skip (l2 :: rest)

/-- `UnifiedDiffHunk::ante_lines`. -/
def UnifiedDiffHunk.ante_lines (h : UnifiedDiffHunk) : Lines :=
  extract_source_lines 1 (fun l => startsWithR l "+") (h.lines.drop 1)

/-- `UnifiedDiffHunk::post_lines`. -/
def UnifiedDiffHunk.post_lines (h : UnifiedDiffHunk) : Lines :=
  extract_source_lines 1 (fun l => startsWithR l "-") (h.lines.drop 1)

/-- `UnifiedDiffHunk::get_abstract_diff_hunk` (the `- 1` on the start line
numbers is `usize` subtraction). -/
def UnifiedDiffHunk.get_abstract_diff_hunk (h : UnifiedDiffHunk) : Option AbstractHunk :=
  let ante_lines := h.ante_lines
  let post_lines := h.post_lines
  AbstractHunk.new
    ⟨if ante_lines.length > 0 then wsub h.ante_chunk.start_line_num 1
      else h.ante_chunk.start_line_num, ante_lines⟩
    ⟨wsub h.post_chunk.start_line_num 1, post_lines⟩

/-! ### Lemmas about the line-matching primitives. -/

section LinesLemmas

/-- The containment check is `false` whenever the wrapped window-size sum
exceeds the list length. -/
theorem containsSubLinesAt_eq_false {self subLines : Lines} {index : Nat}
    (h : self.length < (subLines.length + index) % USIZE) :
    containsSubLinesAt self subLines index = some false := by
  unfold containsSubLinesAt
  rw [if_pos h]

/-- The containment check panics when the window-size sum wraps yet the
wrapped value passes the guard: the slice's end then lies below its start. -/
theorem containsSubLinesAt_eq_none {self subLines : Lines} {index : Nat}
    (h1 : (subLines.length + index) % USIZE ≤ self.length)
    (h2 : USIZE ≤ subLines.length + index) :
    containsSubLinesAt self subLines index = none := by
  unfold containsSubLinesAt
  rw [if_neg (by omega), if_neg (by omega)]

/-- The containment check cannot panic while the window-size sum stays below
the modulus. -/
theorem containsSubLinesAt_ne_none {self subLines : Lines} {index : Nat}
    (h : subLines.length + index < USIZE) :
    containsSubLinesAt self subLines index ≠ none := by
  unfold containsSubLinesAt
  by_cases hg : (subLines.length + index) % USIZE > self.length
  · rw [if_pos hg]
    simp
  · rw [if_neg hg, if_pos h]
    simp

/-- For equal-length lists, the zipped pairwise `==` check decides equality. -/
theorem zip_all_beq_iff :
    ∀ l1 l2 : Lines, l1.length = l2.length →
      ((((l1.zip l2).all fun p => p.1 == p.2) = true) ↔ l1 = l2)
  | [], [], _ => by simp
  | a :: as, b :: bs, h => by
    have ih := zip_all_beq_iff as bs (by simpa using h)
    simp only [List.zip_cons_cons, List.all_cons, Bool.and_eq_true, beq_iff_eq,
      List.cons.injEq]
    exact and_congr Iff.rfl ih

/-- Characterisation of a successful `contains_sub_lines_at` as a window
equation (for lists an actual Rust vector can hold). -/
theorem containsSubLinesAt_iff {self subLines : Lines} {index : Nat}
    (hs : self.length < USIZE) :
    containsSubLinesAt self subLines index = some true ↔
      index + subLines.length ≤ self.length ∧
        (self.drop index).take subLines.length = subLines := by
  unfold containsSubLinesAt
  by_cases hw : subLines.length + index < USIZE
  · rw [Nat.mod_eq_of_lt hw]
    by_cases hlen : subLines.length + index > self.length
    · rw [if_pos hlen]
      constructor
      · intro h
        simp at h
      · intro h
        exact absurd h.1 (by omega)
    · rw [if_neg hlen, if_pos hw]
      push_neg at hlen
      have hwin : ((self.drop index).take subLines.length).length = subLines.length := by
        simp only [List.length_take, List.length_drop]
        omega
      simp only [Option.some.injEq]
      rw [zip_all_beq_iff _ _ hwin]
      constructor
      · intro h
        exact ⟨by omega, h⟩
      · intro h
        exact h.2
  · push_neg at hw
    have hR : ¬(index + subLines.length ≤ self.length) := by omega
    by_cases hg : (subLines.length + index) % USIZE > self.length
    · rw [if_pos hg]
      constructor
      · intro h
        simp at h
      · intro h
        exact absurd h.1 hR
    · rw [if_neg hg, if_neg (by omega)]
      constructor
      · intro h
        simp at h
      · intro h
        exact absurd h.1 hR

/-- If the search loop over `range' a n` finds `i`, then `i` lies in the
range, its check is true, and every earlier index's check is false. -/
theorem ffslLoop_range'_some_inv {self subLines : Lines} :
    ∀ {n a i : Nat}, ffslLoop self subLines (List.range' a n) = some (some i) →
      a ≤ i ∧ i < a + n ∧ containsSubLinesAt self subLines i = some true ∧
        ∀ j, a ≤ j → j < i → containsSubLinesAt self subLines j = some false
  | 0, a, i, h => by simp [List.range', ffslLoop] at h
  | n + 1, a, i, h => by
    rw [List.range'_succ] at h
    simp only [ffslLoop] at h
    cases hc : containsSubLinesAt self subLines a with
    | none => rw [hc] at h; simp at h
    | some b =>
      cases b
      · rw [hc] at h
        simp only [] at h
        obtain ⟨h1, h2, h3, h4⟩ := ffslLoop_range'_some_inv h
        refine ⟨by omega, by omega, h3, fun j hj1 hj2 => ?_⟩
        rcases Nat.eq_or_lt_of_le hj1 with rfl | hj
        · exact hc
        · exact h4 j hj hj2
      · rw [hc] at h
        simp only [Option.some.injEq] at h
        subst h
        exact ⟨Nat.le_refl a, by omega, hc, fun j h1 h2 => absurd h1 (by omega)⟩

/-- If the search loop over `range' a n` finishes without a match, every
index in the range has a false check. -/
theorem ffslLoop_range'_none_inv {self subLines : Lines} :
    ∀ {n a : Nat}, ffslLoop self subLines (List.range' a n) = some none →
      ∀ j, a ≤ j → j < a + n → containsSubLinesAt self subLines j = some false
  | 0, a, _, j, hj1, hj2 => by omega
  | n + 1, a, h, j, hj1, hj2 => by
    rw [List.range'_succ] at h
    simp only [ffslLoop] at h
    cases hc : containsSubLinesAt self subLines a with
    | none => rw [hc] at h; simp at h
    | some b =>
      cases b
      · rw [hc] at h
        simp only [] at h
        rcases Nat.eq_or_lt_of_le hj1 with rfl | hj
        · exact hc
        · exact ffslLoop_range'_none_inv h j hj (by omega)
      · rw [hc] at h
        simp at h

/-- If some index in the range panics and every earlier one is a clean miss,
the whole search loop panics. -/
theorem ffslLoop_range'_panic {self subLines : Lines} :
    ∀ {n a j : Nat}, j < n → containsSubLinesAt self subLines (a + j) = none →
      (∀ i, i < j → containsSubLinesAt self subLines (a + i) = some false) →
      ffslLoop self subLines (List.range' a n) = none
  | 0, _, _, hj, _, _ => by omega
  | n + 1, a, j, hj, hnone, hfalse => by
    rw [List.range'_succ]
    simp only [ffslLoop]
    cases j with
    | zero =>
      have h0 : containsSubLinesAt self subLines a = none := by simpa using hnone
      rw [h0]
    | succ k =>
      have h0 : containsSubLinesAt self subLines a = some false := by
        simpa using hfalse 0 (by omega)
      rw [h0]
      show ffslLoop self subLines (List.range' (a + 1) n) = none
      have hnone2 : containsSubLinesAt self subLines (a + 1 + k) = none := by
        rw [show a + 1 + k = a + (k + 1) from by omega]
        exact hnone
      have hfalse2 : ∀ i, i < k → containsSubLinesAt self subLines (a + 1 + i) =
          some false := by
        intro i hi
        rw [show a + 1 + i = a + (i + 1) from by omega]
        exact hfalse (i + 1) (by omega)
      exact ffslLoop_range'_panic (by omega) hnone2 hfalse2

/-- If no index in the range can panic, the search loop yields a value. -/
theorem ffslLoop_exists {self subLines : Lines} :
    ∀ l : List Nat, (∀ j ∈ l, containsSubLinesAt self subLines j ≠ none) →
      ∃ r, ffslLoop self subLines l = some r
  | [], _ => ⟨none, rfl⟩
  | index :: rest, h => by
    simp only [ffslLoop]
    cases hc : containsSubLinesAt self subLines index with
    | none => exact absurd hc (h index (List.mem_cons_self _ _))
    | some b =>
      cases b
      · obtain ⟨r, hr⟩ := ffslLoop_exists rest (fun j hj => h j (List.mem_cons_of_mem _ hj))
        exact ⟨r, hr⟩
      · exact ⟨some index, rfl⟩

/-- Wrapping addition is plain addition below the modulus. -/
theorem wadd_eq {a b : Nat} (h : a + b < USIZE) : wadd a b = a + b :=
  Nat.mod_eq_of_lt h

/-- Wrapping subtraction is plain subtraction when it does not underflow. -/
theorem wsub_eq {a b : Nat} (hba : b ≤ a) (ha : a < USIZE) : wsub a b = a - b := by
  unfold wsub
  have hb : b < USIZE := lt_of_le_of_lt hba ha
  rw [Nat.mod_eq_of_lt ha, Nat.mod_eq_of_lt hb]
  have : a + (USIZE - b) = USIZE + (a - b) := by omega
  rw [this, Nat.add_mod_left, Nat.mod_eq_of_lt (by omega)]

/-- `applyOffset` with a non-negative in-range displacement is plain
addition. -/
theorem applyOffset_add {n m : Nat} (h : n + m < USIZE) : applyOffset n (m : Int) = n + m := by
  unfold applyOffset
  have h1 : (n : Int) + (m : Int) = ((n + m : Nat) : Int) := by push_cast; ring
  rw [h1, Int.emod_eq_of_lt (by positivity) (by exact_mod_cast h)]
  omega

/-- When the sub-sequence fits below the bound (`len(sub) <= start + len`),
the loop bound does not underflow: the search cannot panic, a found index is
the least match, and a clean miss means no match exists anywhere. -/
theorem findFirstSubLines_fit (self subLines : Lines) (start_index : Nat)
    (hself : self.length < 2 ^ 62) (hsub : subLines.length < 2 ^ 62)
    (hstart : start_index < 2 ^ 62)
    (hfit : subLines.length ≤ start_index + self.length) :
    (∃ r, findFirstSubLines self subLines start_index = some r) ∧
      (∀ i, findFirstSubLines self subLines start_index = some (some i) →
        start_index ≤ i ∧ i + subLines.length ≤ self.length ∧
          containsSubLinesAt self subLines i = some true ∧
          ∀ j, start_index ≤ j → j < i → containsSubLinesAt self subLines j = some false) ∧
      (findFirstSubLines self subLines start_index = some none →
        ∀ i, start_index ≤ i → containsSubLinesAt self subLines i ≠ some true) := by
  have hU : (2 : Nat) ^ 62 + 2 ^ 62 + 2 ^ 62 < USIZE := by unfold USIZE; norm_num
  have e1 : wadd start_index self.length = start_index + self.length := wadd_eq (by omega)
  have e2 : wsub (start_index + self.length) subLines.length =
      start_index + self.length - subLines.length := wsub_eq (by omega) (by omega)
  have e3 : wadd (start_index + self.length - subLines.length) 1 =
      start_index + self.length - subLines.length + 1 := wadd_eq (by omega)
  have hN : findFirstSubLines self subLines start_index =
      ffslLoop self subLines (List.range' start_index
        (start_index + self.length - subLines.length + 1 - start_index)) := by
    unfold findFirstSubLines
    rw [e1, e2, e3]
  refine ⟨?_, ?_, ?_⟩
  · rw [hN]
    apply ffslLoop_exists
    intro j hj
    have hm := List.mem_range'_1.mp hj
    apply containsSubLinesAt_ne_none
    omega
  · intro i hfound
    rw [hN] at hfound
    obtain ⟨h1, h2, h3, h4⟩ := ffslLoop_range'_some_inv hfound
    have hle := (containsSubLinesAt_iff (by omega)).mp h3
    exact ⟨h1, hle.1, h3, h4⟩
  · intro hnone i hi hc
    rw [hN] at hnone
    have hle := (containsSubLinesAt_iff (by omega)).mp hc
    have hf : containsSubLinesAt self subLines i = some false :=
      ffslLoop_range'_none_inv hnone i hi (by omega)
    rw [hc] at hf
    simp at hf

/-- When the sub-sequence overruns the bound by exactly one, the wrapped loop
bound is zero, the loop body never runs and the search reports a clean miss
(a debug build would panic on the underflowing bound). -/
theorem findFirstSubLines_empty (self subLines : Lines) (start_index : Nat)
    (hself : self.length < 2 ^ 62) (_hsub : subLines.length < 2 ^ 62)
    (hstart : start_index < 2 ^ 62)
    (hone : subLines.length = start_index + self.length + 1) :
    findFirstSubLines self subLines start_index = some none := by
  have e1 : wadd start_index self.length = start_index + self.length :=
    wadd_eq (by unfold USIZE; omega)
  have e2 : wsub (start_index + self.length) subLines.length = USIZE - 1 := by
    unfold wsub USIZE
    omega
  have e3 : wadd (USIZE - 1) 1 = 0 := by
    unfold wadd USIZE
    omega
  unfold findFirstSubLines
  rw [e1, e2, e3, Nat.zero_sub]
  rfl

/-- When the sub-sequence overruns the bound by two or more, the search
panics: the wrapped loop bound is astronomically large, every index below
`2 ^ 64 - len(sub)` is a clean miss, and at `2 ^ 64 - len(sub)` the wrapped
window passes the guard and the containment check's slice panics.  (A debug
build panics earlier, on the underflowing bound subtraction.) -/
theorem findFirstSubLines_panic (self subLines : Lines) (start_index : Nat)
    (hself : self.length < 2 ^ 62) (hsub : subLines.length < 2 ^ 62)
    (hstart : start_index < 2 ^ 62)
    (hover : start_index + self.length + 2 ≤ subLines.length) :
    findFirstSubLines self subLines start_index = none := by
  have e1 : wadd start_index self.length = start_index + self.length :=
    wadd_eq (by unfold USIZE; omega)
  have e2 : wsub (start_index + self.length) subLines.length =
      USIZE - (subLines.length - start_index - self.length) := by
    unfold wsub USIZE
    omega
  have e3 : wadd (USIZE - (subLines.length - start_index - self.length)) 1 =
      USIZE - (subLines.length - start_index - self.length) + 1 := by
    unfold wadd USIZE
    omega
  unfold findFirstSubLines
  rw [e1, e2, e3]
  refine ffslLoop_range'_panic
    (show USIZE - subLines.length - start_index <
      USIZE - (subLines.length - start_index - self.length) + 1 - start_index
      from by unfold USIZE; omega) ?_ ?_
  · apply containsSubLinesAt_eq_none
    · unfold USIZE
      omega
    · unfold USIZE
      omega
  · intro i hi
    apply containsSubLinesAt_eq_false
    unfold USIZE at hi ⊢
    omega

/-- A found mismatch position lies inside the list. -/
theorem positionMismatch_lt :
    ∀ {l : List (Line × Line)} {i : Nat}, positionMismatch l = some i → i < l.length
  | [], i, h => by simp [positionMismatch] at h
  | p :: rest, i, h => by
    unfold positionMismatch at h
    by_cases hp : p.1 ≠ p.2
    · rw [if_pos hp, Option.some.injEq] at h
      subst h
      simp
    · rw [if_neg hp] at h
      cases hr : positionMismatch rest with
      | none => rw [hr] at h; simp at h
      | some k =>
        rw [hr] at h
        simp only [Option.map_some', Option.some.injEq] at h
        subst h
        have := positionMismatch_lt hr
        simp only [List.length_cons]
        omega

/-- `applyOffset` with a zero displacement. -/
theorem applyOffset_zero {n : Nat} (h : n < USIZE) : applyOffset n 0 = n := by
  have := applyOffset_add (n := n) (m := 0) (by omega)
  simpa using this

/-- In-range slices do not panic. -/
theorem sliceR_eq {l : Lines} {a b : Nat} (h1 : a ≤ b) (h2 : b ≤ l.length) :
    sliceR l a b = some ((l.take b).drop a) := by
  unfold sliceR
  rw [if_pos ⟨h1, h2⟩]

/-- Slicing from the start is `take`. -/
theorem sliceR_zero {l : Lines} {b : Nat} (h : b ≤ l.length) :
    sliceR l 0 b = some (l.take b) := by
  rw [sliceR_eq (Nat.zero_le b) h, List.drop_zero]

/-- Slicing to the end is `drop`. -/
theorem sliceR_to_end {l : Lines} {a : Nat} (h : a ≤ l.length) :
    sliceR l a l.length = some (l.drop a) := by
  rw [sliceR_eq h (Nat.le_refl _), List.take_length]

/-- `chunk[ANTE]` is the ante chunk. -/
theorem chunk_ANTE (h : AbstractHunk) : h.chunk ANTE = h.ante := rfl

/-- `chunk[POST]` is the post chunk. -/
theorem chunk_POST (h : AbstractHunk) : h.chunk POST = h.post := rfl

/-- Applying a single-hunk diff forward when the ante lines sit exactly at
`ante.start_index` splices in the post lines: strategy (a) of the engine.
(Shared helper for the exactness and idempotence claims.) -/
theorem applyExactSingle (src : Lines) (h : AbstractHunk)
    (hb : src.length < USIZE)
    (hm : containsSubLinesAt src h.ante.lines h.ante.start_index = some true) :
    (AbstractDiff.mk [h]).apply_to_lines src false none =
      some (⟨src.take h.ante.start_index ++ h.post.lines ++
          src.drop (h.ante.start_index + h.ante.lines.length), 1, 0, 0, 0⟩, []) := by
  obtain ⟨hle, htake⟩ := (containsSubLinesAt_iff hb).mp hm
  have hguard : (h.ante).matches_lines src 0 = some true := by
    unfold AbstractChunk.matches_lines
    rw [applyOffset_zero (by omega)]
    exact hm
  have hw : wadd h.ante.start_index h.ante.lines.length =
      h.ante.start_index + h.ante.lines.length := wadd_eq (by omega)
  have hidx : applyOffset h.ante.start_index 0 = h.ante.start_index :=
    applyOffset_zero (by omega)
  have hidx2 : applyOffset (h.ante.start_index + h.ante.lines.length) 0 =
      h.ante.start_index + h.ante.lines.length := applyOffset_zero (by omega)
  unfold AbstractDiff.apply_to_lines
  have hA : ((if (false = true) then POST else ANTE) : Nat) = ANTE := rfl
  have hP : ((if (false = true) then ANTE else POST) : Nat) = POST := rfl
  simp only [applyHunks, hA, hP, chunk_ANTE, chunk_POST, List.length_cons, List.length_nil,
    hguard, if_true, hidx, hw, hidx2]
  have h01 : wadd 0 1 = 1 := by decide
  rw [sliceR_zero (by omega : h.ante.start_index ≤ src.length)]
  dsimp only
  rw [sliceR_to_end hle]
  simp [h01, List.append_assoc]

/-- Re-applying a single-hunk diff to the exact-application output triggers
strategy (c) and changes nothing, provided strategies (a) and (b) both fail on
that output and the hunk's two chunks share their start index.  (Shared
helper for the idempotence claim.) -/
theorem reapplyAlreadyAux (src : Lines) (h : AbstractHunk) (O : Lines)
    (hb : src.length < 2 ^ 62) (hbp : h.post.lines.length < 2 ^ 62)
    (hss : h.ante.start_index = h.post.start_index)
    (hm : containsSubLinesAt src h.ante.lines h.ante.start_index = some true)
    (hO : O = src.take h.ante.start_index ++ h.post.lines ++
        src.drop (h.ante.start_index + h.ante.lines.length))
    (h2a : (h.ante).matches_lines O 0 = some false)
    (h2b : h.get_compromised_posn O 0 FUZZ_FACTOR false = some none) :
    ∃ ds, (AbstractDiff.mk [h]).apply_to_lines O false none = some (⟨O, 0, 0, 1, 0⟩, ds) := by
  obtain ⟨hle, htake⟩ := (containsSubLinesAt_iff (show src.length < USIZE from
    by unfold USIZE; omega)).mp hm
  have hUS : (2 : Nat) ^ 62 + 2 ^ 62 < USIZE := by unfold USIZE; norm_num
  have hti : (src.take h.ante.start_index).length = h.ante.start_index := by
    rw [List.length_take]
    omega
  have hOassoc : O = src.take h.ante.start_index ++ (h.post.lines ++
      src.drop (h.ante.start_index + h.ante.lines.length)) := by
    rw [hO, List.append_assoc]
  have hOdrop : O.drop h.ante.start_index = h.post.lines ++
      src.drop (h.ante.start_index + h.ante.lines.length) := by
    rw [hOassoc]
    exact List.drop_left' hti
  have hOlen : O.length = h.ante.start_index + h.post.lines.length +
      (src.length - (h.ante.start_index + h.ante.lines.length)) := by
    rw [hO]
    simp [List.length_append, List.length_take, List.length_drop]
    omega
  have hcontains : containsSubLinesAt O h.post.lines h.ante.start_index = some true := by
    apply (containsSubLinesAt_iff (show O.length < USIZE from by
      rw [hOlen]; unfold USIZE; omega)).mpr
    constructor
    · omega
    · rw [hOdrop]
      exact List.take_left _ _
  have hiaa : h.is_already_applied O 0 false = some true := by
    have hdef : h.is_already_applied O 0 false =
        (h.post).matches_lines O
          (((h.ante.start_index : Int) - (h.post.start_index : Int)) + 0) := rfl
    rw [hdef]
    unfold AbstractChunk.matches_lines
    rw [← hss]
    have h0 : ((h.ante.start_index : Int) - (h.ante.start_index : Int) + 0) = (0 : Int) := by
      ring
    rw [h0, applyOffset_zero (by omega)]
    exact hcontains
  have hwend : (h.post).end_index = h.ante.start_index + h.post.lines.length := by
    unfold AbstractChunk.end_index
    rw [← hss]
    exact wadd_eq (by omega)
  have hend : applyOffset ((h.post).end_index) 0 =
      h.ante.start_index + h.post.lines.length := by
    rw [hwend]
    exact applyOffset_zero (by omega)
  have htakeO : O.take (h.ante.start_index + h.post.lines.length) =
      src.take h.ante.start_index ++ h.post.lines := by
    rw [hO]
    have hlen2 : (src.take h.ante.start_index ++ h.post.lines).length =
        h.ante.start_index + h.post.lines.length := by
      rw [List.length_append, hti]
    rw [← hlen2]
    exact List.take_left _ _
  have hdropO : O.drop (h.ante.start_index + h.post.lines.length) =
      src.drop (h.ante.start_index + h.ante.lines.length) := by
    rw [hO]
    have hlen2 : (src.take h.ante.start_index ++ h.post.lines).length =
        h.ante.start_index + h.post.lines.length := by
      rw [List.length_append, hti]
    rw [← hlen2]
    exact List.drop_left _ _
  unfold AbstractDiff.apply_to_lines
  have hA : ((if (false = true) then POST else ANTE) : Nat) = ANTE := rfl
  have hP : ((if (false = true) then ANTE else POST) : Nat) = POST := rfl
  simp only [applyHunks, hA, hP, chunk_ANTE, chunk_POST, List.length_cons, List.length_nil,
    h2a, h2b, hiaa, hend]
  rw [sliceR_zero (by omega : h.ante.start_index + h.post.lines.length ≤ O.length)]
  dsimp only
  rw [sliceR_to_end (by omega : h.ante.start_index + h.post.lines.length ≤ O.length)]
  have h01 : wadd 0 1 = 1 := by decide
  simp only [List.nil_append, h01, List.take_append_drop]
  exact ⟨_, rfl⟩

/-- One iteration of the fuzz-reduction loop that finds no anchor moves on to
the next reduction candidate. -/
theorem gcpLoop_cons_none (h : AbstractHunk) (lines : Lines) (start_index : Nat)
    (reverse : Bool) (context_redn : Nat) (rest : List Nat) (sub : Lines)
    (hslice : sliceR (h.chunk (if reverse then POST else ANTE)).lines
        (min context_redn h.ante_context_len)
        (wsub (h.chunk (if reverse then POST else ANTE)).lines.length
          (min context_redn h.post_context_len)) = some sub)
    (hfind : findFirstSubLines lines sub start_index = some none) :
    gcpLoop h lines start_index reverse (context_redn :: rest) =
      gcpLoop h lines start_index reverse rest := by
  conv_lhs => rw [gcpLoop]
  rw [hslice]
  dsimp only
  rw [hfind]

/-- One iteration of the fuzz-reduction loop whose search panics aborts the
whole loop. -/
theorem gcpLoop_cons_panic (h : AbstractHunk) (lines : Lines) (start_index : Nat)
    (reverse : Bool) (context_redn : Nat) (rest : List Nat) (sub : Lines)
    (hslice : sliceR (h.chunk (if reverse then POST else ANTE)).lines
        (min context_redn h.ante_context_len)
        (wsub (h.chunk (if reverse then POST else ANTE)).lines.length
          (min context_redn h.post_context_len)) = some sub)
    (hfind : findFirstSubLines lines sub start_index = none) :
    gcpLoop h lines start_index reverse (context_redn :: rest) = none := by
  conv_lhs => rw [gcpLoop]
  rw [hslice]
  dsimp only
  rw [hfind]

/-- A hunk whose exact placement misses and whose fuzz search panics aborts
the whole application with a panic. -/
theorem applyHunks_gcp_panic (lines : Lines) (path : Option String) (total : Nat)
    (hunk : AbstractHunk) (rest : List AbstractHunk) (hunk_index : Nat)
    (current_offset : Int) (lines_index : Nat) (result : ApplnResult) (diags : List String)
    (h1 : (hunk.ante).matches_lines lines current_offset = some false)
    (h2 : hunk.get_compromised_posn lines lines_index FUZZ_FACTOR false = none) :
    applyHunks lines false path total (hunk :: rest) hunk_index current_offset lines_index
      result diags = none := by
  have hA : ((if (false = true) then POST else ANTE) : Nat) = ANTE := rfl
  simp only [applyHunks, hA, chunk_ANTE, h1, h2]

/-- A panic in the hunk loop is a panic of `apply_to_lines`. -/
theorem apply_to_lines_panic (d : AbstractDiff) (lines : Lines) (rev : Bool)
    (path : Option String)
    (hloop : applyHunks lines rev path d.hunks.length d.hunks 0 0 0
      ⟨[], 0, 0, 0, 0⟩ [] = none) :
    d.apply_to_lines lines rev path = none := by
  unfold AbstractDiff.apply_to_lines
  rw [hloop]

/-- The fuzz search of the scenario-5 hunk (ante lines 10-20) over the
one-line source panics: the single reduction candidate searches for an
eleven-line sub-sequence, the loop bound of `find_first_sub_lines` underflows
by ten, and after `2 ^ 64 - 11` clean misses the containment check's slice
panics at index `2 ^ 64 - 11`. -/
theorem c5_gcp_panic :
    (⟨⟨9, List.replicate 11 "x\n"⟩, ⟨9, List.replicate 11 "y\n"⟩, 0, 0⟩ :
        AbstractHunk).get_compromised_posn ["a\n"] 0 FUZZ_FACTOR false = none := by
  have hfind : findFirstSubLines ["a\n"] (List.replicate 11 "x\n") 0 = none := by
    apply findFirstSubLines_panic
    · norm_num
    · simp only [List.length_replicate]
      norm_num
    · norm_num
    · simp only [List.length_replicate, List.length_cons, List.length_nil]
      norm_num
  have h1 : (⟨⟨9, List.replicate 11 "x\n"⟩, ⟨9, List.replicate 11 "y\n"⟩, 0, 0⟩ :
      AbstractHunk).get_compromised_posn ["a\n"] 0 FUZZ_FACTOR false =
      gcpLoop ⟨⟨9, List.replicate 11 "x\n"⟩, ⟨9, List.replicate 11 "y\n"⟩, 0, 0⟩
        ["a\n"] 0 false [0] := by
    unfold AbstractHunk.get_compromised_posn
    rw [show List.range (min FUZZ_FACTOR
        (max (⟨⟨9, List.replicate 11 "x\n"⟩, ⟨9, List.replicate 11 "y\n"⟩, 0, 0⟩ :
          AbstractHunk).ante_context_len
          (⟨⟨9, List.replicate 11 "x\n"⟩, ⟨9, List.replicate 11 "y\n"⟩, 0, 0⟩ :
          AbstractHunk).post_context_len) + 1) = [0] from by decide]
  rw [h1]
  exact gcpLoop_cons_panic
    ⟨⟨9, List.replicate 11 "x\n"⟩, ⟨9, List.replicate 11 "y\n"⟩, 0, 0⟩
    ["a\n"] 0 false 0 [] (List.replicate 11 "x\n") (by decide) hfind

end LinesLemmas

theorem lor_disjoint {a c n : Nat} (h : c < 2 ^ n) : (a * 2 ^ n) ||| c = a * 2 ^ n + c := by
  rw [Nat.mul_comm a (2 ^ n)]
  apply Nat.eq_of_testBit_eq
  intro j
  rw [Nat.testBit_lor, Nat.testBit_mul_pow_two_add a h j, Nat.testBit_mul_pow_two]
  by_cases hj : j < n
  · rw [if_pos hj]
    simp [Nat.not_le_of_lt hj]
  · rw [if_neg hj]
    have hc : c.testBit j = false := Nat.testBit_lt_two_pow (lt_of_lt_of_le h
      (Nat.pow_le_pow_right (by norm_num) (by omega)))
    simp [Nat.le_of_not_lt hj, hc]

theorem lor_overlap (x M b k : Nat) (hMb : M + b < 2 ^ k) (m : Nat) (hM : M = m * 2 ^ 8)
    (hb : b < 2 ^ 8) : (x * 2 ^ k + M) ||| (M + b) = x * 2 ^ k + M + b := by
  have h1 : x * 2 ^ k + M = (x * 2 ^ k) ||| M := (lor_disjoint (by omega)).symm
  have h2 : M + b = M ||| b := by
    rw [hM]
    exact (lor_disjoint hb).symm
  rw [h1, h2, Nat.lor_assoc, ← Nat.lor_assoc M M b, Nat.or_self, ← h2,
    lor_disjoint (show M + b < 2 ^ k from hMb), ← h1]
  omega

theorem decode_map_encode : ∀ d : Fin 85, decode_map (ENCODE.getD d.val 0) = some d.val := by
  decide

theorem foldAcc_snippet : ∀ (n : Nat) (a A m : Nat) (t : List Nat), A < 85 ^ n →
    foldAcc a (n + m) (snippetAux n A ++ t) = foldAcc (a * 85 ^ n + A) m t
  | 0, a, A, m, t, hA => by
    have : A = 0 := by omega
    subst this
    simp [snippetAux]
  | n + 1, a, A, m, t, hA => by
    have hdiv : A / 85 < 85 ^ n := by
      rw [Nat.div_lt_iff_lt_mul (by norm_num)]
      calc A < 85 ^ (n + 1) := hA
      _ = 85 ^ n * 85 := by ring
    have hmod : A % 85 < 85 := Nat.mod_lt _ (by norm_num)
    show foldAcc a (n + 1 + m) ((snippetAux n (A / 85) ++ [ENCODE.getD (A % 85) 0]) ++ t) = _
    rw [List.append_assoc]
    have harith : n + 1 + m = n + (m + 1) := by omega
    rw [harith, foldAcc_snippet n a (A / 85) (m + 1) _ hdiv]
    have harith2 : (a * 85 ^ n + A / 85) * 85 + A % 85 = a * 85 ^ (n + 1) + A := by
      have h85 : A / 85 * 85 + A % 85 = A := by omega
      calc (a * 85 ^ n + A / 85) * 85 + A % 85
          = a * 85 ^ n * 85 + (A / 85 * 85 + A % 85) := by ring
        _ = a * 85 ^ n * 85 + A := by rw [h85]
        _ = a * 85 ^ (n + 1) + A := by ring
    have hdm : decode_map (ENCODE.getD (A % 85) 0) = some (A % 85) := by
      have := decode_map_encode ⟨A % 85, hmod⟩
      simpa using this
    conv_lhs => rw [foldAcc.eq_def]
    simp only [List.singleton_append, hdm]
    rw [harith2]

theorem foldAcc_snippet5 (A : Nat) (t : List Nat) (hA : A < 85 ^ 5) :
    foldAcc 0 5 (snippetAux 5 A ++ t) = foldAcc A 0 t := by
  have := foldAcc_snippet 5 0 A 0 t hA
  simpa using this

theorem accOfGroup_closed (b0 b1 b2 b3 : Nat) (_h0 : b0 < 256) (h1 : b1 < 256)
    (h2 : b2 < 256) (h3 : b3 < 256) :
    accOfGroup [b0] = b0 * 2 ^ 24 ∧
      accOfGroup [b0, b1] = b0 * 2 ^ 24 + b1 * 2 ^ 16 ∧
      accOfGroup [b0, b1, b2] = b0 * 2 ^ 24 + b1 * 2 ^ 16 + b2 * 2 ^ 8 ∧
      accOfGroup [b0, b1, b2, b3] = b0 * 2 ^ 24 + b1 * 2 ^ 16 + b2 * 2 ^ 8 + b3 := by
  have e1 : accOfGroup [b0] = (0 ||| b0 <<< 24) := rfl
  have e2 : accOfGroup [b0, b1] = ((0 ||| b0 <<< 24) ||| b1 <<< 16) := rfl
  have e3 : accOfGroup [b0, b1, b2] = (((0 ||| b0 <<< 24) ||| b1 <<< 16) ||| b2 <<< 8) := rfl
  have e4 : accOfGroup [b0, b1, b2, b3] =
      ((((0 ||| b0 <<< 24) ||| b1 <<< 16) ||| b2 <<< 8) ||| b3 <<< 0) := rfl
  have s24 : b0 <<< 24 = b0 * 2 ^ 24 := Nat.shiftLeft_eq b0 24
  have s16 : b1 <<< 16 = b1 * 2 ^ 16 := Nat.shiftLeft_eq b1 16
  have s8 : b2 <<< 8 = b2 * 2 ^ 8 := Nat.shiftLeft_eq b2 8
  have s0 : b3 <<< 0 = b3 := by rw [Nat.shiftLeft_eq]; ring
  have v1 : (0 : Nat) ||| b0 <<< 24 = b0 * 2 ^ 24 := by rw [s24, Nat.zero_or]
  have v2 : b0 * 2 ^ 24 ||| b1 <<< 16 = b0 * 2 ^ 24 + b1 * 2 ^ 16 := by
    rw [s16]
    exact lor_disjoint (by omega)
  have v3 : b0 * 2 ^ 24 + b1 * 2 ^ 16 ||| b2 <<< 8 =
      b0 * 2 ^ 24 + b1 * 2 ^ 16 + b2 * 2 ^ 8 := by
    rw [s8, show b0 * 2 ^ 24 + b1 * 2 ^ 16 = (b0 * 2 ^ 8 + b1) * 2 ^ 16 from by ring]
    rw [lor_disjoint (show b2 * 2 ^ 8 < 2 ^ 16 from by omega)]
  have v4 : b0 * 2 ^ 24 + b1 * 2 ^ 16 + b2 * 2 ^ 8 ||| b3 <<< 0 =
      b0 * 2 ^ 24 + b1 * 2 ^ 16 + b2 * 2 ^ 8 + b3 := by
    rw [s0, show b0 * 2 ^ 24 + b1 * 2 ^ 16 + b2 * 2 ^ 8 =
      (b0 * 2 ^ 16 + b1 * 2 ^ 8 + b2) * 2 ^ 8 from by ring]
    rw [lor_disjoint (show b3 < 2 ^ 8 from by omega)]
  refine ⟨?_, ?_, ?_, ?_⟩
  · rw [e1, v1]
  · rw [e2, v1, v2]
  · rw [e3, v1, v2, v3]
  · rw [e4, v1, v2, v3, v4]

theorem extractBytes_group (b0 b1 b2 b3 : Nat) (h0 : b0 < 256) (h1 : b1 < 256)
    (h2 : b2 < 256) (h3 : b3 < 256) (k : Nat) (hk : k ≤ 4) :
    extractBytes (b0 * 2 ^ 24 + b1 * 2 ^ 16 + b2 * 2 ^ 8 + b3) k =
      [b0, b1, b2, b3].take k := by
  have r1 : rotl8 (b0 * 2 ^ 24 + b1 * 2 ^ 16 + b2 * 2 ^ 8 + b3) =
      (b0 * 2 ^ 24 + b1 * 2 ^ 16 + b2 * 2 ^ 8 + b3) * 2 ^ 8 + b0 := by
    unfold rotl8
    rw [Nat.shiftLeft_eq, Nat.shiftRight_eq_div_pow,
      Nat.mod_eq_of_lt (show (b0 * 2 ^ 24 + b1 * 2 ^ 16 + b2 * 2 ^ 8 + b3) * 2 ^ 8 < USIZE
        from by unfold USIZE; omega),
      show (b0 * 2 ^ 24 + b1 * 2 ^ 16 + b2 * 2 ^ 8 + b3) / 2 ^ 24 = b0 from by omega]
    exact lor_disjoint (by omega)
  have r2 : rotl8 ((b0 * 2 ^ 24 + b1 * 2 ^ 16 + b2 * 2 ^ 8 + b3) * 2 ^ 8 + b0) =
      (b0 * 2 ^ 24 + b1 * 2 ^ 16 + b2 * 2 ^ 8 + b3) * 2 ^ 16 + (b0 * 2 ^ 8) + b1 := by
    unfold rotl8
    rw [Nat.shiftLeft_eq, Nat.shiftRight_eq_div_pow,
      Nat.mod_eq_of_lt (show ((b0 * 2 ^ 24 + b1 * 2 ^ 16 + b2 * 2 ^ 8 + b3) * 2 ^ 8 + b0) *
          2 ^ 8 < USIZE from by unfold USIZE; omega),
      show ((b0 * 2 ^ 24 + b1 * 2 ^ 16 + b2 * 2 ^ 8 + b3) * 2 ^ 8 + b0) / 2 ^ 24 =
        (b0 * 2 ^ 8) + b1 from by omega,
      show ((b0 * 2 ^ 24 + b1 * 2 ^ 16 + b2 * 2 ^ 8 + b3) * 2 ^ 8 + b0) * 2 ^ 8 =
        (b0 * 2 ^ 24 + b1 * 2 ^ 16 + b2 * 2 ^ 8 + b3) * 2 ^ 16 + (b0 * 2 ^ 8)
        from by ring]
    exact lor_overlap _ _ _ 16 (by omega) b0 rfl (by omega)
  have r3 : rotl8 ((b0 * 2 ^ 24 + b1 * 2 ^ 16 + b2 * 2 ^ 8 + b3) * 2 ^ 16 +
        (b0 * 2 ^ 8) + b1) =
      (b0 * 2 ^ 24 + b1 * 2 ^ 16 + b2 * 2 ^ 8 + b3) * 2 ^ 24 +
        (b0 * 2 ^ 16 + b1 * 2 ^ 8) + b2 := by
    unfold rotl8
    rw [Nat.shiftLeft_eq, Nat.shiftRight_eq_div_pow,
      Nat.mod_eq_of_lt (show ((b0 * 2 ^ 24 + b1 * 2 ^ 16 + b2 * 2 ^ 8 + b3) * 2 ^ 16 +
          (b0 * 2 ^ 8) + b1) * 2 ^ 8 < USIZE from by unfold USIZE; omega),
      show ((b0 * 2 ^ 24 + b1 * 2 ^ 16 + b2 * 2 ^ 8 + b3) * 2 ^ 16 + (b0 * 2 ^ 8) + b1) /
          2 ^ 24 = (b0 * 2 ^ 16 + b1 * 2 ^ 8) + b2 from by omega,
      show ((b0 * 2 ^ 24 + b1 * 2 ^ 16 + b2 * 2 ^ 8 + b3) * 2 ^ 16 + (b0 * 2 ^ 8) + b1) *
          2 ^ 8 = (b0 * 2 ^ 24 + b1 * 2 ^ 16 + b2 * 2 ^ 8 + b3) * 2 ^ 24 +
          (b0 * 2 ^ 16 + b1 * 2 ^ 8) from by ring]
    exact lor_overlap _ _ _ 24 (by omega) (b0 * 2 ^ 8 + b1) (by ring) (by omega)
  have r4 : rotl8 ((b0 * 2 ^ 24 + b1 * 2 ^ 16 + b2 * 2 ^ 8 + b3) * 2 ^ 24 +
        (b0 * 2 ^ 16 + b1 * 2 ^ 8) + b2) =
      (b0 * 2 ^ 24 + b1 * 2 ^ 16 + b2 * 2 ^ 8 + b3) * 2 ^ 32 +
        (b0 * 2 ^ 24 + b1 * 2 ^ 16 + b2 * 2 ^ 8) + b3 := by
    unfold rotl8
    rw [Nat.shiftLeft_eq, Nat.shiftRight_eq_div_pow,
      Nat.mod_eq_of_lt (show ((b0 * 2 ^ 24 + b1 * 2 ^ 16 + b2 * 2 ^ 8 + b3) * 2 ^ 24 +
          (b0 * 2 ^ 16 + b1 * 2 ^ 8) + b2) * 2 ^ 8 < USIZE from by unfold USIZE; omega),
      show ((b0 * 2 ^ 24 + b1 * 2 ^ 16 + b2 * 2 ^ 8 + b3) * 2 ^ 24 +
          (b0 * 2 ^ 16 + b1 * 2 ^ 8) + b2) / 2 ^ 24 =
          (b0 * 2 ^ 24 + b1 * 2 ^ 16 + b2 * 2 ^ 8) + b3 from by omega,
      show ((b0 * 2 ^ 24 + b1 * 2 ^ 16 + b2 * 2 ^ 8 + b3) * 2 ^ 24 +
          (b0 * 2 ^ 16 + b1 * 2 ^ 8) + b2) * 2 ^ 8 =
          (b0 * 2 ^ 24 + b1 * 2 ^ 16 + b2 * 2 ^ 8 + b3) * 2 ^ 32 +
          (b0 * 2 ^ 24 + b1 * 2 ^ 16 + b2 * 2 ^ 8) from by ring]
    exact lor_overlap _ _ _ 32 (by omega) (b0 * 2 ^ 16 + b1 * 2 ^ 8 + b2) (by ring) (by omega)
  have m1 : ((b0 * 2 ^ 24 + b1 * 2 ^ 16 + b2 * 2 ^ 8 + b3) * 2 ^ 8 + b0) % 256 = b0 := by
    omega
  have m2 : ((b0 * 2 ^ 24 + b1 * 2 ^ 16 + b2 * 2 ^ 8 + b3) * 2 ^ 16 + (b0 * 2 ^ 8) + b1) %
      256 = b1 := by omega
  have m3 : ((b0 * 2 ^ 24 + b1 * 2 ^ 16 + b2 * 2 ^ 8 + b3) * 2 ^ 24 +
      (b0 * 2 ^ 16 + b1 * 2 ^ 8) + b2) % 256 = b2 := by omega
  have m4 : ((b0 * 2 ^ 24 + b1 * 2 ^ 16 + b2 * 2 ^ 8 + b3) * 2 ^ 32 +
      (b0 * 2 ^ 24 + b1 * 2 ^ 16 + b2 * 2 ^ 8) + b3) % 256 = b3 := by omega
  interval_cases k
  · rfl
  · simp only [extractBytes]
    rw [r1, m1]
    rfl
  · simp only [extractBytes]
    rw [r1, r2, m1, m2]
    rfl
  · simp only [extractBytes]
    rw [r1, r2, r3, m1, m2, m3]
    rfl
  · simp only [extractBytes]
    rw [r1, r2, r3, r4, m1, m2, m3, m4]
    rfl

theorem decodeLast_snippet (A k : Nat) (t : List Nat) (hA5 : A < 85 ^ 5)
    (hAM : A ≤ MAX_VAL) :
    decodeLast (snippetAux 5 A ++ t) k = .ok (extractBytes A k) := by
  unfold decodeLast
  rw [foldAcc_snippet5 A t hA5]
  dsimp only [foldAcc]
  rw [if_neg (show ¬ MAX_VAL < A from by omega)]

theorem decodeLoop_encodeString (n : Nat) : ∀ data : List Nat, data.length ≤ n →
    (∀ b ∈ data, b < 256) → decodeLoop (encodeString data) data.length = .ok data := by
  have h85 : (85 : Nat) ^ 5 = 4437053125 := by norm_num
  have hMV : MAX_VAL = 4294967295 := rfl
  induction n with
  | zero =>
    intro data hlen _
    rcases data with _ | ⟨b, t⟩
    · rfl
    · simp at hlen
  | succ n IH =>
    intro data hlen hdata
    rcases data with _ | ⟨b0, _ | ⟨b1, _ | ⟨b2, _ | ⟨b3, _ | ⟨r, rs⟩⟩⟩⟩⟩
    · rfl
    · have h0 : b0 < 256 := hdata b0 (by simp)
      have hacc := (accOfGroup_closed b0 0 0 0 h0 (by omega) (by omega) (by omega)).1
      have enc : encodeString [b0] = snippetAux 5 (accOfGroup [b0]) ++ [] := by
        rw [List.append_nil]
        rfl
      show decodeLast (encodeString [b0]) 1 = Except.ok [b0]
      rw [enc, decodeLast_snippet (accOfGroup [b0]) 1 [] (by rw [hacc, h85]; omega)
        (by rw [hacc, hMV]; omega), hacc,
        show b0 * 2 ^ 24 = b0 * 2 ^ 24 + 0 * 2 ^ 16 + 0 * 2 ^ 8 + 0 from by ring,
        extractBytes_group b0 0 0 0 h0 (by omega) (by omega) (by omega) 1 (by omega)]
      rfl
    · have h0 : b0 < 256 := hdata b0 (by simp)
      have h1 : b1 < 256 := hdata b1 (by simp)
      have hacc := (accOfGroup_closed b0 b1 0 0 h0 h1 (by omega) (by omega)).2.1
      have enc : encodeString [b0, b1] = snippetAux 5 (accOfGroup [b0, b1]) ++ [] := by
        rw [List.append_nil]
        rfl
      show decodeLast (encodeString [b0, b1]) 2 = Except.ok [b0, b1]
      rw [enc, decodeLast_snippet (accOfGroup [b0, b1]) 2 [] (by rw [hacc, h85]; omega)
        (by rw [hacc, hMV]; omega), hacc,
        show b0 * 2 ^ 24 + b1 * 2 ^ 16 =
          b0 * 2 ^ 24 + b1 * 2 ^ 16 + 0 * 2 ^ 8 + 0 from by ring,
        extractBytes_group b0 b1 0 0 h0 h1 (by omega) (by omega) 2 (by omega)]
      rfl
    · have h0 : b0 < 256 := hdata b0 (by simp)
      have h1 : b1 < 256 := hdata b1 (by simp)
      have h2 : b2 < 256 := hdata b2 (by simp)
      have hacc := (accOfGroup_closed b0 b1 b2 0 h0 h1 h2 (by omega)).2.2.1
      have enc : encodeString [b0, b1, b2] =
          snippetAux 5 (accOfGroup [b0, b1, b2]) ++ [] := by
        rw [List.append_nil]
        rfl
      show decodeLast (encodeString [b0, b1, b2]) 3 = Except.ok [b0, b1, b2]
      rw [enc, decodeLast_snippet (accOfGroup [b0, b1, b2]) 3 [] (by rw [hacc, h85]; omega)
        (by rw [hacc, hMV]; omega), hacc,
        show b0 * 2 ^ 24 + b1 * 2 ^ 16 + b2 * 2 ^ 8 =
          b0 * 2 ^ 24 + b1 * 2 ^ 16 + b2 * 2 ^ 8 + 0 from by ring,
        extractBytes_group b0 b1 b2 0 h0 h1 h2 (by omega) 3 (by omega)]
      rfl
    · have h0 : b0 < 256 := hdata b0 (by simp)
      have h1 : b1 < 256 := hdata b1 (by simp)
      have h2 : b2 < 256 := hdata b2 (by simp)
      have h3 : b3 < 256 := hdata b3 (by simp)
      have hacc := (accOfGroup_closed b0 b1 b2 b3 h0 h1 h2 h3).2.2.2
      have enc : encodeString [b0, b1, b2, b3] =
          snippetAux 5 (accOfGroup [b0, b1, b2, b3]) ++ [] := by
        rw [List.append_nil]
        rfl
      show decodeLast (encodeString [b0, b1, b2, b3]) 4 = Except.ok [b0, b1, b2, b3]
      rw [enc, decodeLast_snippet (accOfGroup [b0, b1, b2, b3]) 4 []
        (by rw [hacc, h85]; omega) (by rw [hacc, hMV]; omega), hacc,
        extractBytes_group b0 b1 b2 b3 h0 h1 h2 h3 4 (by omega)]
      rfl
    · have h0 : b0 < 256 := hdata b0 (by simp)
      have h1 : b1 < 256 := hdata b1 (by simp)
      have h2 : b2 < 256 := hdata b2 (by simp)
      have h3 : b3 < 256 := hdata b3 (by simp)
      have hsub : ∀ b ∈ r :: rs, b < 256 := fun b hb => hdata b (by simp [hb])
      have hacc := (accOfGroup_closed b0 b1 b2 b3 h0 h1 h2 h3).2.2.2
      have hA5 : accOfGroup [b0, b1, b2, b3] < 85 ^ 5 := by rw [hacc, h85]; omega
      have hAM : ¬ MAX_VAL < accOfGroup [b0, b1, b2, b3] := by rw [hacc, hMV]; omega
      have hlen5 : (b0 :: b1 :: b2 :: b3 :: r :: rs).length = rs.length + 5 := by
        simp only [List.length_cons]
      have enc : encodeString (b0 :: b1 :: b2 :: b3 :: r :: rs) =
          snippetAux 5 (accOfGroup [b0, b1, b2, b3]) ++ encodeString (r :: rs) := rfl
      have ih : decodeLoop (encodeString (r :: rs)) (rs.length + 1) =
          .ok (r :: rs) :=
        IH (r :: rs) (by simp only [List.length_cons] at hlen ⊢; omega) hsub
      rw [hlen5, enc]
      simp only [decodeLoop]
      rw [foldAcc_snippet5 _ _ hA5]
      dsimp only [foldAcc]
      rw [if_neg hAM, ih]
      dsimp only
      rw [hacc, extractBytes_group b0 b1 b2 b3 h0 h1 h2 h3 4 (by omega)]
      rfl

/-! ### Claim theorems. -/

/-- C5: on the spec's scenario -- source `["a\n"]` and a hunk whose ante
lines occupy lines 10-20 -- the engine never reaches the end-of-file branch:
strategy (a) misses, and strategy (b)'s fuzz search panics inside
`find_first_sub_lines` (release build: the loop bound underflows and the
containment check's slice panics at index `2 ^ 64 - 11`; debug build: panic on
the underflowing subtraction itself), so the claimed `failures = 1` outcome
with the `Unexpected end of file` diagnostic never occurs. -/
theorem apply_eof_scenario_panics :
    (AbstractDiff.mk [⟨⟨9, List.replicate 11 "x\n"⟩, ⟨9, List.replicate 11 "y\n"⟩, 0,
        0⟩]).apply_to_lines ["a\n"] false none = none ∧
      (none : Option (ApplnResult × List String)) ≠
        some (⟨["a\n"], 0, 0, 0, 1⟩,
          ["Unexpected end of file: Hunk #1 could NOT be applied.\n"]) := by
  constructor
  · apply apply_to_lines_panic
    show applyHunks ["a\n"] false none 1
      [⟨⟨9, List.replicate 11 "x\n"⟩, ⟨9, List.replicate 11 "y\n"⟩, 0, 0⟩] 0 0 0
      ⟨[], 0, 0, 0, 0⟩ [] = none
    exact applyHunks_gcp_panic ["a\n"] none 1
      ⟨⟨9, List.replicate 11 "x\n"⟩, ⟨9, List.replicate 11 "y\n"⟩, 0, 0⟩ [] 0 0 0
      ⟨[], 0, 0, 0, 0⟩ [] (by decide) c5_gcp_panic
  · decide

/-- C4 (amended): for a single-hunk diff whose chunks share their start index,
if the first forward application applies the hunk exactly (one success, no
merges, already-applieds or failures) and on the resulting output neither the
ante lines re-match at their position (strategy (a)) nor any fuzz-reduced
anchor is found (strategy (b)), then the second forward application leaves the
lines unchanged and reports `already_applied = 1`.  The extra preconditions
are forced by the counterexample: without them strategy (a) can fire again on
the output. -/
theorem reapply_after_success_already_applied (src : Lines) (h : AbstractHunk) (O : Lines)
    (hb : src.length < 2 ^ 62) (hbp : h.post.lines.length < 2 ^ 62)
    (hss : h.ante.start_index = h.post.start_index)
    (hm : containsSubLinesAt src h.ante.lines h.ante.start_index = some true)
    (hO : O = src.take h.ante.start_index ++ h.post.lines ++
        src.drop (h.ante.start_index + h.ante.lines.length))
    (h2a : (h.ante).matches_lines O 0 = some false)
    (h2b : h.get_compromised_posn O 0 FUZZ_FACTOR false = some none) :
    (AbstractDiff.mk [h]).apply_to_lines src false none = some (⟨O, 1, 0, 0, 0⟩, []) ∧
      ∃ ds, (AbstractDiff.mk [h]).apply_to_lines O false none =
        some (⟨O, 0, 0, 1, 0⟩, ds) := by
  constructor
  · rw [applyExactSingle src h (by unfold USIZE; omega) hm, hO]
  · exact reapplyAlreadyAux src h O hb hbp hss hm hO h2a h2b

/-- C4 witness: scenario 2 — re-applying scenario 1's hunk to its own output
`["a\n","B\n","b2\n","c\n"]` leaves it unchanged with `already_applied = 1`. -/
theorem reapply_after_success_already_applied_witness :
    (AbstractDiff.mk [⟨⟨1, ["b\n"]⟩, ⟨1, ["B\n", "b2\n"]⟩, 0, 0⟩]).apply_to_lines
        ["a\n", "b\n", "c\n"] false none =
      some (⟨["a\n", "B\n", "b2\n", "c\n"], 1, 0, 0, 0⟩, []) ∧
      ∃ ds, (AbstractDiff.mk [⟨⟨1, ["b\n"]⟩, ⟨1, ["B\n", "b2\n"]⟩, 0, 0⟩]).apply_to_lines
          ["a\n", "B\n", "b2\n", "c\n"] false none =
        some (⟨["a\n", "B\n", "b2\n", "c\n"], 0, 0, 1, 0⟩, ds) :=
  reapply_after_success_already_applied ["a\n", "b\n", "c\n"]
    ⟨⟨1, ["b\n"]⟩, ⟨1, ["B\n", "b2\n"]⟩, 0, 0⟩ ["a\n", "B\n", "b2\n", "c\n"]
    (by norm_num) (by norm_num) rfl (by decide) (by decide) (by decide) (by decide)

/-- C3: forward application of a hunk whose ante lines occur exactly at
`ante.start_index + current_offset` (here the first hunk, offset 0) copies the
preceding source lines verbatim, appends the post chunk's lines, skips the
matched ante region, and counts one success. -/
theorem apply_exact_single_hunk (src : Lines) (h : AbstractHunk)
    (hb : src.length < USIZE)
    (hm : containsSubLinesAt src h.ante.lines h.ante.start_index = some true) :
    (AbstractDiff.mk [h]).apply_to_lines src false none =
      some (⟨src.take h.ante.start_index ++ h.post.lines ++
          src.drop (h.ante.start_index + h.ante.lines.length), 1, 0, 0, 0⟩, []) :=
  applyExactSingle src h hb hm

/-- C3 witness: the hunk lowered from the unified text
`@@ -2,1 +2,2 @@ / -b / +B / +b2` applied to `["a\n","b\n","c\n"]` yields
`["a\n","B\n","b2\n","c\n"]` with one success. -/
theorem apply_exact_single_hunk_witness :
    (UnifiedDiffHunk.mk ["@@ -2,1 +2,2 @@\n", "-b\n", "+B\n", "+b2\n"]
          ⟨2, 1⟩ ⟨2, 2⟩).get_abstract_diff_hunk =
        some ⟨⟨1, ["b\n"]⟩, ⟨1, ["B\n", "b2\n"]⟩, 0, 0⟩ ∧
      (AbstractDiff.mk [⟨⟨1, ["b\n"]⟩, ⟨1, ["B\n", "b2\n"]⟩, 0, 0⟩]).apply_to_lines
          ["a\n", "b\n", "c\n"] false none =
        some (⟨["a\n", "B\n", "b2\n", "c\n"], 1, 0, 0, 0⟩, []) :=
  ⟨by decide,
    (apply_exact_single_hunk ["a\n", "b\n", "c\n"]
        ⟨⟨1, ["b\n"]⟩, ⟨1, ["B\n", "b2\n"]⟩, 0, 0⟩ (by norm_num [USIZE]) (by decide)).trans
      (by decide)⟩

/-- C8 counterexample: the claim says `find_first_sub_lines` never panics --
in particular that it returns a clean `None` whenever
`len(sub) > start + len(self)` -- but searching `["a\n"]` for a three-line
sub-sequence from index 0 panics (the model's `none`), which is neither a
clean miss (`some none`) nor a found index. -/
theorem find_first_sub_lines_panic_counterexample :
    findFirstSubLines ["a\n"] ["x\n", "x\n", "x\n"] 0 = none ∧
      (["x\n", "x\n", "x\n"] : Lines).length > 0 + (["a\n"] : Lines).length ∧
      (none : Option (Option Nat)) ≠ some none :=
  ⟨findFirstSubLines_panic ["a\n"] ["x\n", "x\n", "x\n"] 0 (by norm_num) (by norm_num)
      (by norm_num) (by norm_num),
    by decide, by decide⟩

/-- C8 (amended): `find_first_sub_lines` splits into three regimes by the
release-build value of its loop bound `start + len(self) - len(sub) + 1`.
When `len(sub) <= start + len(self)` the bound does not underflow: the search
never panics and returns the least index `i >= start_index` with
`i <= len(self) - len(sub)` at which `contains_sub_lines_at` holds, or a
clean `None` when there is no such index.  When `len(sub)` exceeds
`start + len(self)` by exactly one, the wrapped bound is zero, the loop body
never runs and the search returns a clean `None`.  When it exceeds it by two
or more, the search panics (release build: out-of-range slice at index
`2 ^ 64 - len(sub)` after an astronomically long loop; debug build: panic on
the underflowing bound).  The `2 ^ 62` bounds are generous forms of Rust's
guarantee that a vector occupies at most `isize::MAX` bytes. -/
theorem find_first_sub_lines_regimes (self subLines : Lines) (start_index : Nat)
    (hself : self.length < 2 ^ 62) (hsub : subLines.length < 2 ^ 62)
    (hstart : start_index < 2 ^ 62) :
    (subLines.length ≤ start_index + self.length →
      (∃ r, findFirstSubLines self subLines start_index = some r) ∧
        (∀ i, findFirstSubLines self subLines start_index = some (some i) →
          start_index ≤ i ∧ i + subLines.length ≤ self.length ∧
            containsSubLinesAt self subLines i = some true ∧
            ∀ j, start_index ≤ j → j < i →
              containsSubLinesAt self subLines j = some false) ∧
        (findFirstSubLines self subLines start_index = some none →
          ∀ i, start_index ≤ i → containsSubLinesAt self subLines i ≠ some true)) ∧
      (subLines.length = start_index + self.length + 1 →
        findFirstSubLines self subLines start_index = some none) ∧
      (start_index + self.length + 2 ≤ subLines.length →
        findFirstSubLines self subLines start_index = none) :=
  ⟨fun hfit => findFirstSubLines_fit self subLines start_index hself hsub hstart hfit,
    fun hone => findFirstSubLines_empty self subLines start_index hself hsub hstart hone,
    fun hover => findFirstSubLines_panic self subLines start_index hself hsub hstart hover⟩

/-- C8 witness: the regime theorem at two concrete searches -- a fitting
search that finds `"b\n"` at index 1, and an overrun-by-one search that
misses cleanly. -/
theorem find_first_sub_lines_regimes_witness :
    findFirstSubLines ["a\n", "b\n", "c\n"] ["b\n"] 0 = some (some 1) ∧
      (∃ r, findFirstSubLines ["a\n", "b\n", "c\n"] ["b\n"] 0 = some r) ∧
      findFirstSubLines ["a\n"] ["x\n", "x\n"] 0 = some none :=
  ⟨by decide,
    ((find_first_sub_lines_regimes ["a\n", "b\n", "c\n"] ["b\n"] 0 (by norm_num)
        (by norm_num) (by norm_num)).1 (by norm_num)).1,
    (find_first_sub_lines_regimes ["a\n"] ["x\n", "x\n"] 0 (by norm_num) (by norm_num)
        (by norm_num)).2.1 (by norm_num)⟩

/-- C7 counterexample: the hunk built by `AbstractHunk::new` from the unequal
chunks `["x\n", "x\n"]` and `["x\n"]` has `ante_context_len = 1` and
`post_context_len = 1`, whose sum `2` exceeds
`min (len ante.lines) (len post.lines) = 1`. -/
theorem context_len_sum_counterexample :
    AbstractHunk.new ⟨0, ["x\n", "x\n"]⟩ ⟨0, ["x\n"]⟩ =
        some ⟨⟨0, ["x\n", "x\n"]⟩, ⟨0, ["x\n"]⟩, 1, 1⟩ ∧
      ¬(1 + 1 ≤ min (["x\n", "x\n"] : Lines).length (["x\n"] : Lines).length) := by
  constructor
  · decide
  · decide

/-- C7 (amended): for a hunk built by `AbstractHunk::new`, the context
lengths are exactly the `first_inequality_fm_head` / `first_inequality_fm_tail`
values, `ante_context_len` is at most `min` of the two chunk lengths and
`post_context_len` at most their `max`; the claimed bound of the sum by the
`min` does not hold. -/
theorem context_len_bounds (ante_chunk post_chunk : AbstractChunk) (h : AbstractHunk)
    (hnew : AbstractHunk.new ante_chunk post_chunk = some h) :
    h.ante = ante_chunk ∧ h.post = post_chunk ∧
      first_inequality_fm_head ante_chunk.lines post_chunk.lines = some h.ante_context_len ∧
      first_inequality_fm_tail ante_chunk.lines post_chunk.lines = some h.post_context_len ∧
      h.ante_context_len ≤ min ante_chunk.lines.length post_chunk.lines.length ∧
      h.post_context_len ≤ max ante_chunk.lines.length post_chunk.lines.length := by
  unfold AbstractHunk.new at hnew
  cases hh : first_inequality_fm_head ante_chunk.lines post_chunk.lines with
  | none => rw [hh] at hnew; exact absurd hnew (by simp)
  | some a =>
    cases ht : first_inequality_fm_tail ante_chunk.lines post_chunk.lines with
    | none => rw [hh, ht] at hnew; exact absurd hnew (by simp)
    | some b =>
      rw [hh, ht] at hnew
      simp only [Option.some.injEq] at hnew
      subst hnew
      dsimp only
      refine ⟨rfl, rfl, rfl, rfl, ?_, ?_⟩
      · unfold first_inequality_fm_head at hh
        cases hpm : positionMismatch (ante_chunk.lines.zip post_chunk.lines) with
        | some k =>
          rw [hpm] at hh
          simp only [Option.some.injEq] at hh
          subst hh
          have := positionMismatch_lt hpm
          rw [List.length_zip] at this
          omega
        | none =>
          rw [hpm] at hh
          by_cases hl : ante_chunk.lines.length = post_chunk.lines.length
          · rw [if_pos hl] at hh; exact absurd hh (by simp)
          · rw [if_neg hl] at hh
            simp only [Option.some.injEq] at hh
            omega
      · unfold first_inequality_fm_tail at ht
        cases hpm : positionMismatch (ante_chunk.lines.reverse.zip post_chunk.lines.reverse) with
        | some k =>
          rw [hpm] at ht
          simp only [Option.some.injEq] at ht
          subst ht
          have := positionMismatch_lt hpm
          rw [List.length_zip, List.length_reverse, List.length_reverse] at this
          omega
        | none =>
          rw [hpm] at ht
          by_cases h1 : ante_chunk.lines.length > post_chunk.lines.length
          · rw [if_pos h1] at ht
            simp only [Option.some.injEq] at ht
            omega
          · rw [if_neg h1] at ht
            by_cases h2 : post_chunk.lines.length > ante_chunk.lines.length
            · rw [if_pos h2] at ht
              simp only [Option.some.injEq] at ht
              omega
            · rw [if_neg h2] at ht
              exact absurd ht (by simp)

/-- C9 counterexample: `decode_size` maps `'a'` (97) to 27 and `'z'` (122) to
52, not to 26 and 51 as claimed. -/
theorem decode_size_lowercase_counterexample :
    GitBase85.decode_size 97 = .ok 27 ∧ (27 : Nat) ≠ 26 ∧
      GitBase85.decode_size 122 = .ok 52 ∧ (52 : Nat) ≠ 51 := by
  refine ⟨by decide, by decide, by decide, by decide⟩

/-- C9 (amended): `decode_size` maps `'A'..'Z'` to payload sizes 0..25,
`'a'..'z'` to 27..52 (size 26 is unrepresentable), and every other byte to an
error. -/
theorem decode_size_ranges (ch : Nat) :
    (65 ≤ ch → ch ≤ 90 →
        GitBase85.decode_size ch = .ok (ch - 65) ∧ ch - 65 ≤ 25) ∧
      (97 ≤ ch → ch ≤ 122 →
        GitBase85.decode_size ch = .ok (ch - 97 + 27) ∧
          27 ≤ ch - 97 + 27 ∧ ch - 97 + 27 ≤ 52) ∧
      (¬(65 ≤ ch ∧ ch ≤ 90) → ¬(97 ≤ ch ∧ ch ≤ 122) →
        ∃ e, GitBase85.decode_size ch = .error e) := by
  refine ⟨fun h1 h2 => ?_, fun h1 h2 => ?_, fun h1 h2 => ?_⟩ <;>
    unfold GitBase85.decode_size
  · rw [if_pos ⟨h1, h2⟩]
    exact ⟨rfl, by omega⟩
  · rw [if_neg (by omega : ¬(65 ≤ ch ∧ ch ≤ 90)), if_pos ⟨h1, h2⟩]
    exact ⟨rfl, by omega, by omega⟩
  · rw [if_neg h1, if_neg h2]
    exact ⟨_, rfl⟩

/-- C9 witness: the range theorem applied at `'A'` and at `'a'`. -/
theorem decode_size_ranges_witness :
    (GitBase85.decode_size 65 = .ok (65 - 65) ∧ 65 - 65 ≤ 25) ∧
      (GitBase85.decode_size 97 = .ok (97 - 97 + 27) ∧
        27 ≤ 97 - 97 + 27 ∧ 97 - 97 + 27 ≤ 52) :=
  ⟨(decode_size_ranges 65).1 (by norm_num) (by norm_num),
    (decode_size_ranges 97).2.1 (by norm_num) (by norm_num)⟩

/-- C2: `DiffPlus::len` never terminates on a `DiffPlus` whose preamble is
`None` — the `else` branch calls `self.len()` on the unchanged receiver, so no
amount of call depth produces a value.  (`patch.rs` `parse_lines` calls
`diff_plus.len()` on every parsed diff-plus, so parsing any diff without a git
preamble diverges and `patch.len()`/`patch.iter()` are never reached.) -/
theorem diff_plus_len_diverges_without_preamble :
    ∀ (fuel : Nat) (d : Diff), DiffPlus.lenFuel fuel ⟨none, d⟩ = none := by
  intro fuel
  induction fuel with
  | zero => intro d; rfl
  | succ n ih => intro d; exact ih d

/-- C1: the fuzzed-placement strategy re-emits the *ante*-side lines, so the
spec's shifted scenario leaves the source unchanged while still counting one
merge: the hunk lowered from `@@ -2,1 +2,2 @@ / -b / +B / +b2` applied to
`["0\n","a\n","b\n","c\n"]` returns the source verbatim with `merges = 1`,
not `["0\n","a\n","B\n","b2\n","c\n"]` as the claim states. -/
theorem merge_reemits_ante_lines :
    (UnifiedDiffHunk.mk ["@@ -2,1 +2,2 @@\n", "-b\n", "+B\n", "+b2\n"]
          ⟨2, 1⟩ ⟨2, 2⟩).get_abstract_diff_hunk =
        some ⟨⟨1, ["b\n"]⟩, ⟨1, ["B\n", "b2\n"]⟩, 0, 0⟩ ∧
      (AbstractDiff.mk [⟨⟨1, ["b\n"]⟩, ⟨1, ["B\n", "b2\n"]⟩, 0, 0⟩]).apply_to_lines
          ["0\n", "a\n", "b\n", "c\n"] false none =
        some (⟨["0\n", "a\n", "b\n", "c\n"], 0, 1, 0, 0⟩,
          ["Hunk #1 merged at line 2 (2 lines).\n"]) ∧
      (["0\n", "a\n", "b\n", "c\n"] : Lines) ≠ ["0\n", "a\n", "B\n", "b2\n", "c\n"] := by
  refine ⟨by decide, by decide, by decide⟩

/-- C6 counterexample: in the conflict scenario the diagnostic says
`at 2-7`, but output line 2 is the `<<<<<<<` marker itself and line 7 the
`>>>>>>>` marker; the lines strictly between the markers are lines 3..6, so
the claim (exclusive bounds) predicts `at 3-6`. -/
theorem not_merged_range_counterexample :
    (AbstractDiff.mk [⟨⟨1, ["b\n"]⟩, ⟨1, ["B\n", "b2\n"]⟩, 0, 0⟩]).apply_to_lines
        ["x\n", "y\n", "z\n"] false none =
      some (⟨["x\n", "<<<<<<<", "y\n", "=======", "B\n", "b2\n", ">>>>>>>", "z\n"],
          0, 0, 0, 0⟩,
        ["Hunk #1 NOT MERGED at 2-7.\n"]) ∧
      (["x\n", "<<<<<<<", "y\n", "=======", "B\n", "b2\n", ">>>>>>>", "z\n"] : Lines).get?
          (3 - 1) = some "y\n" ∧
      (["x\n", "<<<<<<<", "y\n", "=======", "B\n", "b2\n", ">>>>>>>", "z\n"] : Lines).get?
          (6 - 1) = some "b2\n" ∧
      ("Hunk #1 NOT MERGED at 2-7.\n" : String) ≠ "Hunk #1 NOT MERGED at 3-6.\n" := by
  refine ⟨by decide, by decide, by decide, by decide⟩

/-- C6 (amended): the `L1`/`L2` in `Hunk #N NOT MERGED at L1-L2.` are the
1-based output line numbers of the `<<<<<<<` and `>>>>>>>` marker lines
themselves (inclusive of the markers). -/
theorem not_merged_range_is_marker_lines :
    (AbstractDiff.mk [⟨⟨1, ["b\n"]⟩, ⟨1, ["B\n", "b2\n"]⟩, 0, 0⟩]).apply_to_lines
        ["x\n", "y\n", "z\n"] false none =
      some (⟨["x\n", "<<<<<<<", "y\n", "=======", "B\n", "b2\n", ">>>>>>>", "z\n"],
          0, 0, 0, 0⟩,
        ["Hunk #1 NOT MERGED at 2-7.\n"]) ∧
      (["x\n", "<<<<<<<", "y\n", "=======", "B\n", "b2\n", ">>>>>>>", "z\n"] : Lines).get?
          (2 - 1) = some conflict_start_marker ∧
      (["x\n", "<<<<<<<", "y\n", "=======", "B\n", "b2\n", ">>>>>>>", "z\n"] : Lines).get?
          (7 - 1) = some conflict_end_marker := by
  refine ⟨by decide, by decide, by decide⟩

/-- C4 counterexample: a hunk whose post lines begin with its ante lines
re-matches exactly on the second application, so re-application inserts again
(`successes = 1`, `already_applied = 0`) and changes the output, refuting the
idempotence claim. -/
theorem reapply_after_success_counterexample :
    AbstractHunk.new ⟨0, ["x\n"]⟩ ⟨0, ["x\n", "y\n"]⟩ =
        some ⟨⟨0, ["x\n"]⟩, ⟨0, ["x\n", "y\n"]⟩, 1, 0⟩ ∧
      (AbstractDiff.mk [⟨⟨0, ["x\n"]⟩, ⟨0, ["x\n", "y\n"]⟩, 1, 0⟩]).apply_to_lines
          ["x\n"] false none = some (⟨["x\n", "y\n"], 1, 0, 0, 0⟩, []) ∧
      (AbstractDiff.mk [⟨⟨0, ["x\n"]⟩, ⟨0, ["x\n", "y\n"]⟩, 1, 0⟩]).apply_to_lines
          ["x\n", "y\n"] false none = some (⟨["x\n", "y\n", "y\n"], 1, 0, 0, 0⟩, []) ∧
      (["x\n", "y\n", "y\n"] : Lines) ≠ ["x\n", "y\n"] ∧ (0 : Nat) ≠ 1 := by
  refine ⟨by decide, by decide, by decide, by decide, by decide⟩

/-- C7 witness: the bounds theorem instantiated at the hunk of scenario 1. -/
theorem context_len_bounds_witness :
    (⟨⟨1, ["b\n"]⟩, ⟨1, ["B\n", "b2\n"]⟩, 0, 0⟩ : AbstractHunk).ante = ⟨1, ["b\n"]⟩ ∧
      (⟨⟨1, ["b\n"]⟩, ⟨1, ["B\n", "b2\n"]⟩, 0, 0⟩ : AbstractHunk).post = ⟨1, ["B\n", "b2\n"]⟩ ∧
      first_inequality_fm_head ["b\n"] ["B\n", "b2\n"] = some 0 ∧
      first_inequality_fm_tail ["b\n"] ["B\n", "b2\n"] = some 0 ∧
      0 ≤ min (["b\n"] : Lines).length (["B\n", "b2\n"] : Lines).length ∧
      0 ≤ max (["b\n"] : Lines).length (["B\n", "b2\n"] : Lines).length :=
  context_len_bounds ⟨1, ["b\n"]⟩ ⟨1, ["B\n", "b2\n"]⟩ _ (by decide)

/-- C10: `GitBase85::decode` is a left inverse of `GitBase85::encode`: for any
byte sequence, decoding the encoding (its character stream at the recorded
size) recovers the original bytes exactly. -/
theorem base85_decode_encode_roundtrip (data : List Nat)
    (hdata : ∀ b ∈ data, b < 256) :
    GitBase85.decode (GitBase85.encode data) = .ok data :=
  decodeLoop_encodeString data.length data le_rfl hdata

theorem base85_decode_encode_roundtrip_witness :
    (∀ b ∈ [0x68, 0x65, 0x6c, 0x6c, 0x6f], b < 256) ∧
      GitBase85.decode (GitBase85.encode [0x68, 0x65, 0x6c, 0x6c, 0x6f]) =
        .ok [0x68, 0x65, 0x6c, 0x6c, 0x6f] :=
  ⟨by decide, base85_decode_encode_roundtrip [0x68, 0x65, 0x6c, 0x6c, 0x6f] (by decide)⟩

end RsCubPd
